import Mathlib

/-!
# Virtual DOM reconciler of `src/main.js`

A shallow embedding of the virtual tree (`vDOM`), the index-based diffing
algorithm `diffAndUpdate`, the tree mutators and the snapshot lifecycle
(`refreshDOM`), together with theorems about the adapter calls they make.

The D3 calls made by the program are recorded as a list of `Call`s, in the
order in which the program makes them.
-/

namespace VDom

/-- Attribute bag of a node: a JavaScript object, kept as the list of its
entries in insertion order (`Object.entries`). The values are strings, the only
values the program stores (lines 7, 184, 197), so that `!==` on two values is
inequality. A JavaScript object holds each key once. -/
structure Attrs where
  entries : List (String × String)
  nodup : (entries.map Prod.fst).Nodup

/-- Property read `obj[key]` over a list of entries: `none` stands for
`undefined`. -/
def getEntry (key : String) : List (String × String) → Option String
  | [] => none
  | (k, v) :: rest => if k = key then some v else getEntry key rest

/-- Property read `attributes[key]`. -/
def Attrs.get (a : Attrs) (key : String) : Option String :=
  getEntry key a.entries

/-- A node of the virtual tree (`vDOM`, `createNode`). -/
inductive Node where
  | mk (id : String) (type : String) (attributes : Attrs)
      (children : List Node) (text : String) : Node

namespace Node

def id : Node → String
  | mk i _ _ _ _ => i

def type : Node → String
  | mk _ t _ _ _ => t

def attributes : Node → Attrs
  | mk _ _ a _ _ => a

def children : Node → List Node
  | mk _ _ _ c _ => c

def text : Node → String
  | mk _ _ _ _ x => x

end Node

/-- A D3 selection used as a parent: `appContainer` (`d3.select('#app')`) or
the selection `d3.select('#' + id)` of an element by its id. -/
inductive Handle where
  | app : Handle
  | byId (id : String) : Handle

/-- The calls the reconciler makes on the live surface.
`create node parent` is one call `renderDOM(node, parent)`, which realises the
whole subtree of `node`; `remove id` is `d3.select('#' + id).remove()`;
`setText id t` is `d3.select('#' + id).text(t)`; `setAttribute id k v` is
`d3.select('#' + id).attr(k, v)`. -/
inductive Call where
  | create (node : Node) (parent : Handle) : Call
  | remove (id : String) : Call
  | setText (id : String) (text : String) : Call
  | setAttribute (id : String) (key : String) (value : String) : Call

/-- Lines 92-95: the text update of `diffAndUpdate`. -/
def textPatch (oldNode newNode : Node) : List Call :=
  if oldNode.text ≠ newNode.text then [Call.setText oldNode.id newNode.text] else []

/-- Lines 97-102: `Object.entries(newNode.attributes).forEach(...)`, over the
entries that remain to be visited: the calls of `attr` in a run in which none
of them throws (see `attrLoopRun`). -/
def attrLoop (elementId : String) (oldAttrs : Attrs) :
    List (String × String) → List Call
  | [] => []
  | (key, value) :: rest =>
    if oldAttrs.get key ≠ some value then
      Call.setAttribute elementId key value :: attrLoop elementId oldAttrs rest
    else attrLoop elementId oldAttrs rest

/-- Lines 97-102 of `diffAndUpdate`. -/
def attrPatch (oldNode newNode : Node) : List Call :=
  attrLoop oldNode.id oldNode.attributes newNode.attributes.entries

mutual

/-- The function `diffAndUpdate` (lines 69-110) when `oldNode` is present;
`newNode` may be absent (`undefined`). These are the calls of a run in which
every `d3.select` and every adapter call returns, the schedule of the
reconciler; `diffAndUpdateRun` is the function with the exceptions of its
selections, and `diffAndUpdateRun_returns` relates the two. -/
def diffNode : Node → Option Node → Handle → List Call
  | .mk oid _ _ _ _, none, _ => [Call.remove oid]
  | .mk oid otype oattrs ochildren otext, some newNode, parentSelection =>
    if otype ≠ newNode.type ∨ oid ≠ newNode.id then
      [Call.remove oid, Call.create newNode parentSelection]
    else
      textPatch (.mk oid otype oattrs ochildren otext) newNode
        ++ attrPatch (.mk oid otype oattrs ochildren otext) newNode
        ++ diffChildren ochildren newNode.children (Handle.byId oid)

/-- The loop of lines 106-109 from some index `i` on: the first argument is
`oldNode.children` from `i`, the second `newNode.children` from `i`. When the
old children run out, `oldNode.children[i]` is `undefined` and each call is
`renderDOM(newNode.children[i], element)`. -/
def diffChildren : List Node → List Node → Handle → List Call
  | [], news, element => news.map (fun n => Call.create n element)
  | o :: olds, [], element => diffNode o none element ++ diffChildren olds [] element
  | o :: olds, n :: news, element =>
    diffNode o (some n) element ++ diffChildren olds news element

end

/-- The function `diffAndUpdate` (lines 69-110). `none` is an absent node
(`undefined`). With both nodes absent, `renderDOM(undefined, ...)` reads
`node.type` of `undefined` and throws: the result is `none`. Otherwise the
result is the schedule of `diffNode`, the calls of a run in which no selection
and no adapter call throws; `diffAndUpdateRun` has those exceptions. -/
def diffAndUpdate : Option Node → Option Node → Handle → Option (List Call)
  | none, none, _ => none
  | none, some newNode, parentSelection => some [Call.create newNode parentSelection]
  | some oldNode, newNode, parentSelection => some (diffNode oldNode newNode parentSelection)

/-- The loop of lines 106-109 written with its index: the calls made at
indices `0 .. maxLen - 1`, each `diffAndUpdate(oldNode.children[i],
newNode.children[i], element)`. -/
def childLoop (olds news : List Node) (element : Handle) : List (Option (List Call)) :=
  (List.range (max olds.length news.length)).map
    (fun i => diffAndUpdate olds[i]? news[i]? element)

/-! ## Ids and positions of a tree -/

mutual

/-- The ids of a tree, in document order (a node before its children). -/
def Node.ids : Node → List String
  | .mk i _ _ cs _ => i :: idsList cs

/-- The ids of a sequence of trees, in document order. -/
def idsList : List Node → List String
  | [] => []
  | c :: cs => c.ids ++ idsList cs

end

mutual

/-- The pairs (id, type) of the nodes of a tree, in document order. -/
def Node.idTypes : Node → List (String × String)
  | .mk i t _ cs _ => (i, t) :: idTypesList cs

/-- The pairs (id, type) of a sequence of trees. -/
def idTypesList : List Node → List (String × String)
  | [] => []
  | c :: cs => c.idTypes ++ idTypesList cs

end

/-- The node at a position, given as the child indices from the root down. -/
def nodeAt : Node → List Nat → Option Node
  | n, [] => some n
  | n, i :: path =>
    match n.children[i]? with
    | some c => nodeAt c path
    | none => none

/-- The position `path` exists in both trees and the two nodes at it, and at
each position above it, have the same id and the same type. -/
def Aligned : List Nat → Node → Node → Prop
  | [], o, n => o.id = n.id ∧ o.type = n.type
  | i :: path, o, n =>
    o.id = n.id ∧ o.type = n.type ∧
      ∃ o' n', o.children[i]? = some o' ∧ n.children[i]? = some n' ∧ Aligned path o' n'

/-! ## The live surface -/

/-- An element of the live surface: its id, tag, text and child elements.
Classes, click handlers and the id-less Edit and × buttons that `renderDOM`
adds to an `li` are left out. -/
inductive Elem where
  | mk (id : String) (tag : String) (text : String) (children : List Elem) : Elem

mutual

/-- The element that `renderDOM(node, parent)` appends (lines 28-64): tag
`node.type`, id `node.id` unless `node.attributes` has an entry `id`, which
line 41 then applies over it, text `node.text`, and the rendered children in
order. -/
def renderDOM : Node → Elem
  | .mk i t a cs x => .mk ((a.get "id").getD i) t x (renderChildren cs)

/-- Line 63: `node.children.forEach(child => renderDOM(child, element))`. -/
def renderChildren : List Node → List Elem
  | [] => []
  | c :: cs => renderDOM c :: renderChildren cs

end

mutual

/-- Search of the subtree of one element, the element itself first: see
`modifyFirst`. -/
def modifyIn (id : String) (f : Elem → List Elem) : Elem → Option (List Elem)
  | .mk i t x cs =>
    if i = id then some (f (.mk i t x cs))
    else (modifyFirst id f cs).map (fun cs' => [.mk i t x cs'])

/-- Replace the first element in document order that carries `id` by the
elements `f` gives for it; `none` when no element carries `id` (an empty D3
selection). -/
def modifyFirst (id : String) (f : Elem → List Elem) : List Elem → Option (List Elem)
  | [] => none
  | e :: rest =>
    match modifyIn id f e with
    | some es => some (es ++ rest)
    | none => (modifyFirst id f rest).map (fun r => e :: r)

end

/-- The surface is the sequence of elements below the container `#app`. -/
abbrev Surface := List Elem

/-- Effect of one call on the surface. `create` appends the rendered subtree
as the last child of the parent, `remove` deletes the first element with the
id and its descendants, `setText` is the D3 method `text`, which sets the text
content of the element and so removes every child of it, and `setAttribute`
changes the modelled part only for the key `id`. A call on an empty selection
does nothing. -/
def applyCall (s : Surface) : Call → Surface
  | .create node .app => s ++ [renderDOM node]
  | .create node (.byId p) =>
    (modifyFirst p (fun e => match e with
      | .mk i t x cs => [.mk i t x (cs ++ [renderDOM node])]) s).getD s
  | .remove id => (modifyFirst id (fun _ => []) s).getD s
  | .setText id text =>
    (modifyFirst id (fun e => match e with
      | .mk i t _ _ => [.mk i t text []]) s).getD s
  | .setAttribute id key value =>
    if key = "id" then
      (modifyFirst id (fun e => match e with
        | .mk _ t x cs => [.mk value t x cs]) s).getD s
    else s

/-- Effect of a sequence of calls, in order. -/
def applyCalls (s : Surface) (calls : List Call) : Surface :=
  calls.foldl applyCall s

mutual

/-- The element mirrors the node: same id, type and text, and the children
mirror each other position by position. -/
def mirrors : Node → Elem → Bool
  | .mk i t _ cs x, .mk i' t' x' es =>
    decide (i = i') && decide (t = t') && decide (x = x') && mirrorsList cs es

/-- Two sequences of the same length whose members mirror each other. -/
def mirrorsList : List Node → List Elem → Bool
  | [], [] => true
  | c :: cs, e :: es => mirrors c e && mirrorsList cs es
  | [], _ :: _ => false
  | _ :: _, [] => false

end

/-! ## Tree mutators and snapshot lifecycle -/

mutual

/-- The inner function `removeNode` of `removeTask` (lines 214-220). -/
def removeNode (id : String) : Node → Node
  | .mk i t a cs x => .mk i t a (removeChildren id cs) x

/-- The filter of lines 215-219 over the children that remain to be visited:
a child with the id is dropped, any other child is kept after `removeNode`
has run on it. -/
def removeChildren (id : String) : List Node → List Node
  | [] => []
  | child :: rest =>
    if child.id = id then removeChildren id rest
    else removeNode id child :: removeChildren id rest

end

/-- The two globals `vDOM` and `prevVDOM`. -/
structure State where
  vDOM : Node
  prevVDOM : Node

/-- The function `refreshDOM` (lines 232-238) when the reconciliation returns:
its scheduled calls and the state with the new snapshot. A deep copy of a tree
is the same value. The drawing of the tree diagram (`updateTree`) is left out.
`refreshDOMRun` is the function with the exceptions of the reconciliation,
after which line 237 is not reached. -/
def refreshDOM (s : State) : Option (List Call × State) :=
  (diffAndUpdate (some s.prevVDOM) (some s.vDOM) Handle.app).map
    (fun calls => (calls, { s with prevVDOM := s.vDOM }))

/-- The function `removeTask` (lines 213-223). -/
def removeTask (id : String) (s : State) : Option (List Call × State) :=
  refreshDOM { s with vDOM := removeNode id s.vDOM }

/-! ## Sample trees -/

/-- The attribute bag `{ class: 'list-group' }` of the root (line 7). -/
def rootAttrs : Attrs := ⟨[("class", "list-group")], by decide⟩

/-- The attribute bag `{ class: 'list-group-item' }` of a task (line 184). -/
def itemAttrs : Attrs := ⟨[("class", "list-group-item")], by decide⟩

/-- A task `a` with text `x`. -/
def taskA : Node := .mk "a" "li" itemAttrs [] "x"

/-- The task `a` with text `y`. -/
def taskA2 : Node := .mk "a" "li" itemAttrs [] "y"

/-- A task `b` with one sub-task `b1`. -/
def taskB : Node := .mk "b" "li" itemAttrs [.mk "b1" "li" itemAttrs [] "sub"] "y"

/-- A task `c`. -/
def taskC : Node := .mk "c" "li" itemAttrs [] "z"

/-- The element `a` with type `div`. -/
def divA : Node := .mk "a" "div" itemAttrs [] "x"

/-- The root with the given children. -/
def rootWith (children : List Node) : Node := .mk "root" "div" rootAttrs children ""

/-- A bag with the entries `class`, `title` and `lang`. -/
def attrsOld : Attrs :=
  ⟨[("class", "list-group-item"), ("title", "t1"), ("lang", "en")], by decide⟩

/-- A bag in which `title` has changed, `class` has not, `lang` is gone and
`dir` is new. -/
def attrsNew : Attrs :=
  ⟨[("class", "list-group-item"), ("title", "t2"), ("dir", "ltr")], by decide⟩

/-- The task `a` with the bag `attrsOld`. -/
def taskOldAttrs : Node := .mk "a" "li" attrsOld [] "x"

/-- The task `a` with the bag `attrsNew`. -/
def taskNewAttrs : Node := .mk "a" "li" attrsNew [] "x"

/-- A tree in which the id `b1` occurs below `b` and `a` is a plain task. -/
def sampleTree : Node := rootWith [taskA, taskB, taskC]

/-- A state whose snapshot equals the current tree `sampleTree`. -/
def sampleState : State := { vDOM := sampleTree, prevVDOM := sampleTree }

/-- Previous tree of the replace example: the root with children `a`, `b`. -/
def prevAB : Node := rootWith [taskA, taskB]

/-- Current tree of the replace example: the root with children `c`, `b`. -/
def curCB : Node := rootWith [taskC, taskB]

/-- Current tree of the head insertion example: children `c`, `a`, `b`. -/
def curCAB : Node := rootWith [taskC, taskA, taskB]

/-- A previous tree in which the id `a` occurs twice. -/
def prevTwice : Node := rootWith [taskA, taskA2]

/-! ## Text input and the other mutators -/

/-- The code points that `String.prototype.trim` strips: the ECMAScript
white space and line terminator characters. -/
def isTrimChar (c : Char) : Bool :=
  let n := c.toNat
  n = 0x09 || n = 0x0A || n = 0x0B || n = 0x0C || n = 0x0D || n = 0x20 || n = 0xA0
    || n = 0x1680 || (0x2000 ≤ n && n ≤ 0x200A) || n = 0x2028 || n = 0x2029
    || n = 0x202F || n = 0x205F || n = 0x3000 || n = 0xFEFF

/-- The JavaScript method `trim`: the string without its leading and trailing
white space. -/
def jsTrim (s : String) : String :=
  String.mk ((s.data.dropWhile isTrimChar).reverse.dropWhile isTrimChar).reverse

/-- The function `createNode` (lines 13-19). The id, which the program draws
with `Math.random`, is an argument. -/
def createNode (id : String) (type : String) (attributes : Attrs) (children : List Node)
    (text : String) : Node :=
  .mk id type attributes children text

/-- The statement `node.children.push(child)`. -/
def pushChild (node child : Node) : Node :=
  .mk node.id node.type node.attributes (node.children ++ [child]) node.text

/-- The function `addTask` (lines 180-188): `inputValue` is the value of the
input field and `newId` the id that `createNode` draws. When the trimmed text
is empty the function returns at line 183, without a reconciliation. -/
def addTask (inputValue : String) (newId : String) (s : State) : Option (List Call × State) :=
  let text := jsTrim inputValue
  if text = "" then some ([], s)
  else
    let newTask := createNode newId "li" itemAttrs [] text
    refreshDOM { s with vDOM := pushChild s.vDOM newTask }

/-- What the global `selectedNode` refers to when it is not `null`: a node
object of the current tree, named by its position (the child indices from the
root down; a tree shares no node, so a position names one object), or a node
object that is no longer part of the tree. -/
inductive Selection where
  | attached (path : List Nat) : Selection
  | detached : Selection

/-- The statement `node.children.push(child)` on the node object at a position
of the tree. A position outside the tree names no object and the tree is as it
was. -/
def pushChildAt (child : Node) : List Nat → Node → Node
  | [], node => pushChild node child
  | i :: path, .mk id t a cs x =>
    match cs[i]? with
    | some c => .mk id t a (cs.set i (pushChildAt child path c)) x
    | none => .mk id t a cs x

/-- The function `addSubTask` (lines 190-200): `selectedNode` is the global of
that name (`none` for `null`), `promptResult` what `prompt` returns (`none` for
`null`) and `newId` the id that `createNode` draws. A push on a detached node
object leaves the tree as it is. -/
def addSubTask (selectedNode : Option Selection) (promptResult : Option String)
    (newId : String) (s : State) : Option (List Call × State) :=
  match selectedNode with
  | none => some ([], s)
  | some selected =>
    match promptResult with
    | none => some ([], s)
    | some subTaskText =>
      if subTaskText = "" ∨ jsTrim subTaskText = "" then some ([], s)
      else
        let newSubTask := createNode newId "li" itemAttrs [] (jsTrim subTaskText)
        match selected with
        | .attached path => refreshDOM { s with vDOM := pushChildAt newSubTask path s.vDOM }
        | .detached => refreshDOM s

mutual

/-- The inner function `updateText` of `editTask` (lines 205-208):
`node.text = newText.trim() || node.text` on a node with the id, then the
children, all of them. -/
def updateText (id : String) (newText : String) : Node → Node
  | .mk i t a cs x =>
    .mk i t a (updateTextChildren id newText cs)
      (if i = id then (if jsTrim newText = "" then x else jsTrim newText) else x)

/-- Line 207: `node.children.forEach(updateText)`. -/
def updateTextChildren (id : String) (newText : String) : List Node → List Node
  | [] => []
  | c :: cs => updateText id newText c :: updateTextChildren id newText cs

end

/-- The function `editTask` (lines 202-211): `promptResult` is what `prompt`
returns, `none` for `null`, on which the function returns at line 204. -/
def editTask (id : String) (promptResult : Option String) (s : State) :
    Option (List Call × State) :=
  match promptResult with
  | none => some ([], s)
  | some newText => refreshDOM { s with vDOM := updateText id newText s.vDOM }

/-- One run of a mutation entry point, with what it reads from the page. -/
inductive Action where
  | addTask (inputValue : String) (newId : String) : Action
  | addSubTask (selectedNode : Option Selection) (promptResult : Option String)
      (newId : String) : Action
  | editTask (id : String) (promptResult : Option String) : Action
  | removeTask (id : String) : Action

/-- A root of type `div` without children, as the program starts (lines 4-10),
with the snapshot equal to it (line 229). -/
def startState (rootId : String) (attributes : Attrs) (text : String) : State :=
  { vDOM := .mk rootId "div" attributes [] text,
    prevVDOM := .mk rootId "div" attributes [] text }

/-! ## The reconciler as it runs -/

mutual

/-- The number of levels of a tree. -/
def Node.height : Node → Nat
  | .mk _ _ _ cs _ => heightList cs + 1

/-- The largest number of levels among a sequence of trees. -/
def heightList : List Node → Nat
  | [] => 0
  | c :: cs => max c.height (heightList cs)

end

/-- A lowercase ASCII letter. -/
def isLowerLetter (c : Char) : Bool :=
  'a'.toNat ≤ c.toNat && c.toNat ≤ 'z'.toNat

/-- An ASCII digit. -/
def isDigitChar (c : Char) : Bool :=
  '0'.toNat ≤ c.toNat && c.toNat ≤ '9'.toNat

/-- A lowercase letter followed by lowercase letters and digits, such as
`root`, `li` or `class`. Such a string is a CSS identifier, and the DOM takes it
as the name of an element and of an attribute. -/
def isSimpleName (s : String) : Bool :=
  match s.data with
  | [] => false
  | c :: cs => isLowerLetter c && cs.all (fun d => isLowerLetter d || isDigitChar d)

/-- The empty string or a string that starts with a digit, such as the ids
`3llllllll` and `1a`. After `#` it is not a CSS identifier. -/
def startsWithDigitOrEmpty (s : String) : Bool :=
  match s.data with
  | [] => true
  | c :: _ => isDigitChar c

/-- Why a run of the reconciler ends without returning: the bound on the depth
of the calls is used up; the program throws a `TypeError` by reading a property
of `undefined`; `d3.select` throws a `SyntaxError` on a selector that is not
valid; or the run meets a string whose effect on the browser the model does not
interpret. -/
inductive Failure where
  | outOfFuel : Failure
  | typeError : Failure
  | syntaxError : Failure
  | notInterpreted : Failure
  deriving DecidableEq

/-- A run: the adapter calls made, in order, and why the run ended when it did
not return. -/
structure Run where
  calls : List Call
  failure : Option Failure

/-- A run that returns after the calls. -/
def Run.returned (calls : List Call) : Run := { calls := calls, failure := none }

/-- A run that ends with a failure before any call. -/
def Run.failed (f : Failure) : Run := { calls := [], failure := some f }

/-- Two runs in sequence: the second takes place when the first returns. -/
def Run.andThen (first next : Run) : Run :=
  match first.failure with
  | some _ => first
  | none => { calls := first.calls ++ next.calls, failure := next.failure }

/-- The expression `d3.select('#' + id)` of lines 78, 84 and 90, which hands
the selector to `querySelector`: `none` when it gives a selection. On a simple
name the selector is the id selector of that name. On the empty string or a
string that starts with a digit the selector is not valid and `querySelector`
throws a `SyntaxError`. Other ids are not interpreted. -/
def selectById (id : String) : Option Failure :=
  if isSimpleName id then none
  else if startsWithDigitOrEmpty id then some Failure.syntaxError
  else some Failure.notInterpreted

mutual

/-- The types and the attribute names of the tree are simple names, which
`createElement` (line 29) and `attr` (line 41) accept. -/
def renderable : Node → Bool
  | .mk _ t a cs _ =>
    isSimpleName t && a.entries.all (fun kv => isSimpleName kv.1) && renderableList cs

/-- The trees of the sequence are renderable. -/
def renderableList : List Node → Bool
  | [] => true
  | c :: cs => renderable c && renderableList cs

end

/-- The call `renderDOM(node, parent)` (lines 28-64) on a present node. It
selects no element by id. On a renderable tree it returns. Other types and
attribute names can make the browser throw, which depends on the name and on
whether the parent selection is empty; they are not interpreted. -/
def renderDOMRun (node : Node) (parent : Handle) : Run :=
  if renderable node then Run.returned [Call.create node parent]
  else Run.failed Failure.notInterpreted

/-- Lines 97-102 as they run, over the entries that remain to be visited. The
call `attr(key, value)` returns when `key` is a simple name; other keys can make
the browser throw, which depends on the key and on whether the selection is
empty, and are not interpreted. -/
def attrLoopRun (elementId : String) (oldAttrs : Attrs) : List (String × String) → Run
  | [] => Run.returned []
  | (key, value) :: rest =>
    if oldAttrs.get key ≠ some value then
      if isSimpleName key then
        (Run.returned [Call.setAttribute elementId key value]).andThen
          (attrLoopRun elementId oldAttrs rest)
      else Run.failed Failure.notInterpreted
    else attrLoopRun elementId oldAttrs rest

/-- The loop `for (let i = 0; i < maxLen; i++) body(i)` from index `i` on, with
`remaining = maxLen - i` iterations to go; a failure ends the loop. -/
def forLoop (body : Nat → Run) : Nat → Nat → Run
  | _, 0 => Run.returned []
  | i, remaining + 1 => (body i).andThen (forLoop body (i + 1) remaining)

/-- The function `diffAndUpdate` (lines 69-110) statement by statement, with
the selections of lines 78, 84 and 90, the index loop of lines 106-109 and a
bound `fuel` on the depth of the calls. With both nodes absent, line 72 calls
`renderDOM(undefined, ...)`, which reads `node.type` and throws. A selection
that throws ends the run before the call that was to follow it. -/
def diffAndUpdateRun : Nat → Option Node → Option Node → Handle → Run
  | 0, _, _, _ => Run.failed Failure.outOfFuel
  | _ + 1, none, none, _ => Run.failed Failure.typeError
  | _ + 1, none, some newNode, parentSelection => renderDOMRun newNode parentSelection
  | _ + 1, some oldNode, none, _ =>
    match selectById oldNode.id with
    | some f => Run.failed f
    | none => Run.returned [Call.remove oldNode.id]
  | fuel + 1, some oldNode, some newNode, parentSelection =>
    if oldNode.type ≠ newNode.type ∨ oldNode.id ≠ newNode.id then
      match selectById oldNode.id with
      | some f => Run.failed f
      | none =>
        (Run.returned [Call.remove oldNode.id]).andThen (renderDOMRun newNode parentSelection)
    else
      match selectById oldNode.id with
      | some f => Run.failed f
      | none =>
        ((Run.returned (textPatch oldNode newNode)).andThen
          (attrLoopRun oldNode.id oldNode.attributes newNode.attributes.entries)).andThen
          (forLoop
            (fun i => diffAndUpdateRun fuel oldNode.children[i]? newNode.children[i]?
              (Handle.byId oldNode.id))
            0 (max oldNode.children.length newNode.children.length))

/-- The function `refreshDOM` (lines 232-238) as it runs. The reconciliation
descends in both trees at once, so the height of the snapshot bounds the depth
of its calls. When it throws, lines 235-237 are not reached and the snapshot
stays as it was. The drawing of the tree diagram (`updateTree`) is left out. -/
def refreshDOMRun (s : State) : Run × State :=
  let run := diffAndUpdateRun (s.prevVDOM.height + 1) (some s.prevVDOM) (some s.vDOM)
    Handle.app
  match run.failure with
  | none => (run, { s with prevVDOM := s.vDOM })
  | some _ => (run, s)

/-- The function `addTask` (lines 180-188) as it runs. -/
def addTaskRun (inputValue : String) (newId : String) (s : State) : Run × State :=
  let text := jsTrim inputValue
  if text = "" then (Run.returned [], s)
  else
    let newTask := createNode newId "li" itemAttrs [] text
    refreshDOMRun { s with vDOM := pushChild s.vDOM newTask }

/-- The function `addSubTask` (lines 190-200) as it runs. -/
def addSubTaskRun (selectedNode : Option Selection) (promptResult : Option String)
    (newId : String) (s : State) : Run × State :=
  match selectedNode with
  | none => (Run.returned [], s)
  | some selected =>
    match promptResult with
    | none => (Run.returned [], s)
    | some subTaskText =>
      if subTaskText = "" ∨ jsTrim subTaskText = "" then (Run.returned [], s)
      else
        let newSubTask := createNode newId "li" itemAttrs [] (jsTrim subTaskText)
        match selected with
        | .attached path => refreshDOMRun { s with vDOM := pushChildAt newSubTask path s.vDOM }
        | .detached => refreshDOMRun s

/-- The function `editTask` (lines 202-211) as it runs. -/
def editTaskRun (id : String) (promptResult : Option String) (s : State) : Run × State :=
  match promptResult with
  | none => (Run.returned [], s)
  | some newText => refreshDOMRun { s with vDOM := updateText id newText s.vDOM }

/-- The function `removeTask` (lines 213-223) as it runs. -/
def removeTaskRun (id : String) (s : State) : Run × State :=
  refreshDOMRun { s with vDOM := removeNode id s.vDOM }

/-- Run an entry point on a state. -/
def Action.exec : Action → State → Run × State
  | .addTask inputValue newId, s => addTaskRun inputValue newId s
  | .addSubTask selectedNode promptResult newId, s =>
    addSubTaskRun selectedNode promptResult newId s
  | .editTask id promptResult, s => editTaskRun id promptResult s
  | .removeTask id, s => removeTaskRun id s

/-- A surface that mirrors `sampleTree`. -/
def sampleSurface : Surface := [renderDOM sampleTree]

/-! ## Sample runs -/

/-- The id that `createNode` draws (line 14) when `Math.random()` returns 0.1,
which is `0.3llllllllll...` in base 36. It starts with a digit. -/
def digitFirstId : String := "3llllllll"

/-- A task with the id `digitFirstId`. -/
def task3 : Node := .mk digitFirstId "li" itemAttrs [] "x"

/-- The task `task3` with the text `y`. -/
def task3y : Node := .mk digitFirstId "li" itemAttrs [] "y"

/-- The node `task3` with the type `div`. -/
def div3 : Node := .mk digitFirstId "div" itemAttrs [] "x"

/-- The task `task3` with the bag `attrsOld`. -/
def task3OldAttrs : Node := .mk digitFirstId "li" attrsOld [] "x"

/-- The task `task3` with the bag `attrsNew`. -/
def task3NewAttrs : Node := .mk digitFirstId "li" attrsNew [] "x"

/-- The root with the one task `task3`, and the snapshot equal to it. -/
def state3 : State := { vDOM := rootWith [task3], prevVDOM := rootWith [task3] }

/-- The program as it starts: the root of lines 4-10 and its snapshot. -/
def start : State := startState "root" rootAttrs ""

/-- The state after `addTask` with the input `buy milk`, for which
`createNode` draws `digitFirstId`. -/
def afterAdd : State := (addTaskRun "buy milk" digitFirstId start).2

/-- The state after `editTask` of the new task with `buy oat milk`. -/
def afterEdit : State := (editTaskRun digitFirstId (some "buy oat milk") afterAdd).2

/-- The state after a further `addTask` with a blank input. -/
def afterBlank : State := (addTaskRun "   " "k2" afterEdit).2

/-- The state after `editTask` of the task `b` of the sample tree. -/
def afterEditB : State := (editTaskRun "b" (some "later") sampleState).2

/-! ## Unfolding lemmas -/

theorem getEntry_of_mem (k v : String) :
    ∀ (l : List (String × String)), (l.map Prod.fst).Nodup → (k, v) ∈ l → getEntry k l = some v
  | [], _, h => by simp at h
  | (k', v') :: rest, nd, h => by
    simp only [List.map_cons, List.nodup_cons] at nd
    simp only [List.mem_cons] at h
    rcases h with h | h
    · cases h; simp [getEntry]
    · have hne : k' ≠ k := by
        intro e; subst e
        exact nd.1 (List.mem_map.mpr ⟨(k', v), h, rfl⟩)
      simp [getEntry, hne, getEntry_of_mem k v rest nd.2 h]

theorem attrLoop_nil_of_agree (i : String) (a : Attrs) :
    ∀ (l : List (String × String)), (∀ p ∈ l, a.get p.1 = some p.2) → attrLoop i a l = []
  | [], _ => rfl
  | (k, v) :: rest, h => by
    have h1 : a.get k = some v := h (k, v) (List.mem_cons_self _ _)
    simp only [attrLoop, h1, ne_eq, not_true_eq_false, if_false]
    exact attrLoop_nil_of_agree i a rest (fun p hp => h p (List.mem_cons_of_mem _ hp))

theorem attrPatch_same (o n : Node) (h : o.attributes = n.attributes) : attrPatch o n = [] := by
  unfold attrPatch
  rw [h]
  apply attrLoop_nil_of_agree
  intro p hp
  exact getEntry_of_mem p.1 p.2 _ n.attributes.nodup hp

theorem textPatch_same (o n : Node) (h : o.text = n.text) : textPatch o n = [] := by
  simp [textPatch, h]

theorem diffNode_none (o : Node) (h : Handle) : diffNode o none h = [Call.remove o.id] := by
  cases o; simp [diffNode, Node.id]

theorem diffNode_some (o n : Node) (h : Handle) :
    diffNode o (some n) h =
      if o.type ≠ n.type ∨ o.id ≠ n.id then [Call.remove o.id, Call.create n h]
      else textPatch o n ++ attrPatch o n
        ++ diffChildren o.children n.children (Handle.byId o.id) := by
  cases o; simp [diffNode, Node.id, Node.type, Node.children]

theorem diffNode_replace (o n : Node) (h : Handle) (hne : o.type ≠ n.type ∨ o.id ≠ n.id) :
    diffNode o (some n) h = [Call.remove o.id, Call.create n h] := by
  rw [diffNode_some, if_pos hne]

theorem diffNode_patch (o n : Node) (h : Handle) (hid : o.id = n.id) (hty : o.type = n.type) :
    diffNode o (some n) h =
      textPatch o n ++ attrPatch o n
        ++ diffChildren o.children n.children (Handle.byId o.id) := by
  rw [diffNode_some, if_neg]
  simp [hid, hty]

theorem diffChildren_nil_left (news : List Node) (h : Handle) :
    diffChildren [] news h = news.map (fun n => Call.create n h) := by
  cases news <;> simp [diffChildren]

theorem diffChildren_cons_nil (o : Node) (olds : List Node) (h : Handle) :
    diffChildren (o :: olds) [] h = diffNode o none h ++ diffChildren olds [] h := by
  simp [diffChildren]

theorem diffChildren_cons_cons (o n : Node) (olds news : List Node) (h : Handle) :
    diffChildren (o :: olds) (n :: news) h
      = diffNode o (some n) h ++ diffChildren olds news h := by
  simp [diffChildren]

/-! ## The index loop -/

theorem childLoop_succ (olds news : List Node) (o n : Option Node) (oc nc : List Node)
    (h : Handle) (ho : ∀ i, olds[i + 1]? = oc[i]?) (hn : ∀ i, news[i + 1]? = nc[i]?)
    (ho0 : olds[0]? = o) (hn0 : news[0]? = n)
    (hlen : max olds.length news.length = max oc.length nc.length + 1) :
    childLoop olds news h = diffAndUpdate o n h :: childLoop oc nc h := by
  unfold childLoop
  rw [hlen, List.range_succ_eq_map]
  simp [ho0, hn0, ho, hn, Function.comp_def]

theorem childLoop_cons_cons (o n : Node) (olds news : List Node) (h : Handle) :
    childLoop (o :: olds) (n :: news) h
      = diffAndUpdate (some o) (some n) h :: childLoop olds news h := by
  apply childLoop_succ <;> simp [Nat.succ_max_succ]

theorem childLoop_cons_nil (o : Node) (olds : List Node) (h : Handle) :
    childLoop (o :: olds) [] h = diffAndUpdate (some o) none h :: childLoop olds [] h := by
  apply childLoop_succ <;> simp

theorem childLoop_nil_cons (n : Node) (news : List Node) (h : Handle) :
    childLoop [] (n :: news) h = diffAndUpdate none (some n) h :: childLoop [] news h := by
  apply childLoop_succ <;> simp

theorem childLoop_nil_nil (h : Handle) : childLoop [] [] h = [] := by
  simp [childLoop]

/-- The recursion `diffChildren` makes the calls of the index loop of lines
106-109, in order, and no step of the loop throws. -/
theorem childLoop_eq_diffChildren :
    ∀ (olds news : List Node) (h : Handle),
      (∀ r ∈ childLoop olds news h, r.isSome = true) ∧
      ((childLoop olds news h).map (fun r => r.getD [])).flatten = diffChildren olds news h
  | [], [], h => by simp [childLoop_nil_nil, diffChildren]
  | [], n :: news, h => by
    have ih := childLoop_eq_diffChildren [] news h
    rw [childLoop_nil_cons, diffChildren_nil_left] at *
    refine ⟨?_, ?_⟩
    · intro r hr
      rcases List.mem_cons.mp hr with hr | hr
      · subst hr; rfl
      · exact ih.1 r hr
    · simp [diffAndUpdate, ih.2]
  | o :: olds, [], h => by
    have ih := childLoop_eq_diffChildren olds [] h
    rw [childLoop_cons_nil, diffChildren_cons_nil]
    refine ⟨?_, ?_⟩
    · intro r hr
      rcases List.mem_cons.mp hr with hr | hr
      · subst hr; rfl
      · exact ih.1 r hr
    · simp [diffAndUpdate, ih.2]
  | o :: olds, n :: news, h => by
    have ih := childLoop_eq_diffChildren olds news h
    rw [childLoop_cons_cons, diffChildren_cons_cons]
    refine ⟨?_, ?_⟩
    · intro r hr
      rcases List.mem_cons.mp hr with hr | hr
      · subst hr; rfl
      · exact ih.1 r hr
    · simp [diffAndUpdate, ih.2]

mutual
theorem diffNode_self : ∀ (t : Node) (h : Handle), diffNode t (some t) h = []
  | .mk i ty a cs x, h => by
    rw [diffNode_patch _ _ _ rfl rfl, textPatch_same _ _ rfl, attrPatch_same _ _ rfl]
    simpa [Node.children] using diffChildren_self cs (Handle.byId i)
theorem diffChildren_self : ∀ (cs : List Node) (h : Handle), diffChildren cs cs h = []
  | [], h => by simp [diffChildren]
  | c :: cs, h => by
    rw [diffChildren_cons_cons, diffNode_self c, diffChildren_self cs]; rfl
end

theorem diffChildren_append (cs extra : List Node) (h : Handle) :
    diffChildren cs (cs ++ extra) h = extra.map (fun n => Call.create n h) := by
  induction cs with
  | nil => simp [diffChildren_nil_left]
  | cons c cs ih =>
    rw [List.cons_append, diffChildren_cons_cons, diffNode_self, ih]; rfl

/-! ## Claims about the reconciler -/

/-- C2: reconciling a tree against a structurally equal copy of itself makes
no adapter call at all, at any depth. -/
theorem roundtrip_makes_no_call (t : Node) (h : Handle) :
    diffAndUpdate (some t) (some t) h = some [] := by
  simp [diffAndUpdate, diffNode_self]

theorem attrLoop_eq_filter (i : String) (a : Attrs) :
    ∀ (l : List (String × String)),
      attrLoop i a l
        = (l.filter (fun kv => decide (a.get kv.1 ≠ some kv.2))).map
            (fun kv => Call.setAttribute i kv.1 kv.2)
  | [] => rfl
  | (k, v) :: rest => by
    by_cases hkv : a.get k = some v
    · simp [attrLoop, hkv, attrLoop_eq_filter i a rest]
    · simp [attrLoop, hkv, attrLoop_eq_filter i a rest]

/-! ## The remove mutator -/

theorem removeNode_eq (id : String) (n : Node) :
    removeNode id n = Node.mk n.id n.type n.attributes (removeChildren id n.children) n.text := by
  cases n; simp [removeNode, Node.id, Node.type, Node.attributes, Node.children, Node.text]

theorem removeChildren_eq_filter_map (id : String) :
    ∀ (cs : List Node),
      removeChildren id cs = (cs.filter (fun c => decide (c.id ≠ id))).map (removeNode id)
  | [] => by simp [removeChildren]
  | c :: cs => by
    by_cases hc : c.id = id
    · simp [removeChildren, hc, removeChildren_eq_filter_map id cs]
    · simp [removeChildren, hc, removeChildren_eq_filter_map id cs]

mutual
theorem removeNode_ids_sublist (id : String) :
    ∀ (n : Node), (removeNode id n).ids.Sublist n.ids
  | .mk i t a cs x => by
    simp only [removeNode, Node.ids]
    exact (removeChildren_ids_sublist id cs).cons₂ i
theorem removeChildren_ids_sublist (id : String) :
    ∀ (cs : List Node), (idsList (removeChildren id cs)).Sublist (idsList cs)
  | [] => by simp [removeChildren, idsList]
  | c :: cs => by
    simp only [removeChildren, idsList]
    split
    · exact (removeChildren_ids_sublist id cs).trans (List.sublist_append_right _ _)
    · simp only [idsList]
      exact (removeNode_ids_sublist id c).append (removeChildren_ids_sublist id cs)
end

theorem removeNode_id (id : String) (n : Node) : (removeNode id n).id = n.id := by
  rw [removeNode_eq]; rfl

mutual
theorem removeNode_no_child_with_id (id : String) :
    ∀ (n : Node), id ∉ idsList (removeNode id n).children
  | .mk i t a cs x => by
    simp only [removeNode, Node.children]
    exact removeChildren_no_id id cs
theorem removeChildren_no_id (id : String) :
    ∀ (cs : List Node), id ∉ idsList (removeChildren id cs)
  | [] => by simp [removeChildren, idsList]
  | c :: cs => by
    simp only [removeChildren]
    split
    · exact removeChildren_no_id id cs
    · rename_i hc
      simp only [idsList, List.mem_append, not_or]
      refine ⟨?_, removeChildren_no_id id cs⟩
      have h1 := removeNode_no_child_with_id id c
      have h2 := removeNode_id id c
      cases hr : removeNode id c with
      | mk i' t' a' cs' x' =>
        rw [hr] at h1 h2
        simp only [Node.ids, List.mem_cons, not_or]
        exact ⟨fun e => hc (by rw [← h2]; exact e.symm), h1⟩
end

/-- C10: `removeTask(id)` returns, and it turns the current tree into the tree
where every children sequence has lost each child whose id is `id`, with its
subtree, the remaining children staying in their order and every remaining
node keeping its id, type, attributes and text. Nothing below the root then
carries the id, and the ids that remain are in their former order. -/
theorem removeTask_current_tree (id : String) (s : State) :
    (∃ calls s', removeTask id s = some (calls, s') ∧ s'.vDOM = removeNode id s.vDOM) ∧
    (∀ n : Node, removeNode id n
        = Node.mk n.id n.type n.attributes
            ((n.children.filter (fun c => decide (c.id ≠ id))).map (removeNode id)) n.text) ∧
    (∀ n : Node, id ∉ idsList (removeNode id n).children) ∧
    (∀ n : Node, (removeNode id n).ids.Sublist n.ids) := by
  refine ⟨?_, ?_, removeNode_no_child_with_id id, removeNode_ids_sublist id⟩
  · exact ⟨_, _, rfl, rfl⟩
  · intro n
    rw [removeNode_eq, removeChildren_eq_filter_map]

/-! ## Which ids the calls can name -/

theorem Node.ids_eq (n : Node) : n.ids = n.id :: idsList n.children := by
  cases n; simp [Node.ids, Node.id, Node.children]

theorem ids_subset_of_mem {c : Node} :
    ∀ {cs : List Node}, c ∈ cs → ∀ y ∈ c.ids, y ∈ idsList cs
  | [], hc, _, _ => by simp at hc
  | d :: ds, hc, y, hy => by
    simp only [idsList, List.mem_append]
    rcases List.mem_cons.mp hc with e | hc
    · subst e; exact Or.inl hy
    · exact Or.inr (ids_subset_of_mem hc y hy)

theorem nodup_ids_of_mem {c : Node} :
    ∀ {cs : List Node}, c ∈ cs → (idsList cs).Nodup → c.ids.Nodup
  | [], hc, _ => by simp at hc
  | d :: ds, hc, nd => by
    simp only [idsList] at nd
    rcases List.mem_cons.mp hc with e | hc
    · subst e; exact (List.nodup_append.mp nd).1
    · exact nodup_ids_of_mem hc (List.nodup_append.mp nd).2.1

theorem remove_not_mem_textPatch (o n : Node) (x : String) :
    Call.remove x ∉ textPatch o n := by
  unfold textPatch; split <;> simp

theorem create_not_mem_textPatch (o n c : Node) (p : Handle) :
    Call.create c p ∉ textPatch o n := by
  unfold textPatch; split <;> simp

theorem remove_not_mem_attrPatch (o n : Node) (x : String) :
    Call.remove x ∉ attrPatch o n := by
  simp [attrPatch, attrLoop_eq_filter]

theorem create_not_mem_attrPatch (o n c : Node) (p : Handle) :
    Call.create c p ∉ attrPatch o n := by
  simp [attrPatch, attrLoop_eq_filter]

theorem mem_diffNode_patch {o n : Node} {h : Handle} {call : Call}
    (hid : o.id = n.id) (hty : o.type = n.type) (hcall : call ∈ diffNode o (some n) h) :
    call ∈ textPatch o n ∨ call ∈ attrPatch o n
      ∨ call ∈ diffChildren o.children n.children (Handle.byId o.id) := by
  rw [diffNode_patch o n h hid hty] at hcall
  simpa [List.mem_append, or_assoc] using hcall

mutual
theorem remove_mem_diffNode (x : String) :
    ∀ (o : Node) (n : Option Node) (h : Handle), Call.remove x ∈ diffNode o n h → x ∈ o.ids
  | .mk i t a cs tx, none, h, hx => by
    simp [diffNode] at hx
    simp [Node.ids, hx]
  | .mk i t a cs tx, some n, h, hx => by
    by_cases hne : (Node.mk i t a cs tx).type ≠ n.type ∨ (Node.mk i t a cs tx).id ≠ n.id
    · rw [diffNode_replace _ _ _ hne] at hx
      simp [Node.id] at hx
      simp [Node.ids, hx]
    · have hid : (Node.mk i t a cs tx).id = n.id := by
        by_contra hc; exact hne (Or.inr hc)
      have hty : (Node.mk i t a cs tx).type = n.type := by
        by_contra hc; exact hne (Or.inl hc)
      rcases mem_diffNode_patch hid hty hx with h1 | h1 | h1
      · exact absurd h1 (remove_not_mem_textPatch _ _ _)
      · exact absurd h1 (remove_not_mem_attrPatch _ _ _)
      · have := remove_mem_diffChildren x cs n.children _ h1
        simp [Node.ids, this]
theorem remove_mem_diffChildren (x : String) :
    ∀ (os ns : List Node) (h : Handle),
      Call.remove x ∈ diffChildren os ns h → x ∈ idsList os
  | [], ns, h, hx => by
    simp [diffChildren_nil_left] at hx
  | o :: os, [], h, hx => by
    rw [diffChildren_cons_nil] at hx
    simp only [idsList, List.mem_append] at hx ⊢
    rcases hx with hx | hx
    · exact Or.inl (remove_mem_diffNode x o none h hx)
    · exact Or.inr (remove_mem_diffChildren x os [] h hx)
  | o :: os, n :: ns, h, hx => by
    rw [diffChildren_cons_cons] at hx
    simp only [idsList, List.mem_append] at hx ⊢
    rcases hx with hx | hx
    · exact Or.inl (remove_mem_diffNode x o (some n) h hx)
    · exact Or.inr (remove_mem_diffChildren x os ns h hx)
end

mutual
theorem create_mem_diffNode (c : Node) (p : Handle) :
    ∀ (o n : Node) (h : Handle),
      Call.create c p ∈ diffNode o (some n) h → ∀ y ∈ c.ids, y ∈ n.ids
  | .mk i t a cs tx, n, h, hx => by
    by_cases hne : (Node.mk i t a cs tx).type ≠ n.type ∨ (Node.mk i t a cs tx).id ≠ n.id
    · rw [diffNode_replace _ _ _ hne] at hx
      simp at hx
      intro y hy; rw [← hx.1]; exact hy
    · have hid : (Node.mk i t a cs tx).id = n.id := by
        by_contra hc; exact hne (Or.inr hc)
      have hty : (Node.mk i t a cs tx).type = n.type := by
        by_contra hc; exact hne (Or.inl hc)
      rcases mem_diffNode_patch hid hty hx with h1 | h1 | h1
      · exact absurd h1 (create_not_mem_textPatch _ _ _ _)
      · exact absurd h1 (create_not_mem_attrPatch _ _ _ _)
      · intro y hy
        rw [Node.ids_eq]
        exact List.mem_cons_of_mem _ (create_mem_diffChildren c p cs n.children _ h1 y hy)
theorem create_mem_diffChildren (c : Node) (p : Handle) :
    ∀ (os ns : List Node) (h : Handle),
      Call.create c p ∈ diffChildren os ns h → ∀ y ∈ c.ids, y ∈ idsList ns
  | [], ns, h, hx => by
    rw [diffChildren_nil_left] at hx
    obtain ⟨n, hn, e⟩ := List.mem_map.mp hx
    cases e
    exact ids_subset_of_mem hn
  | o :: os, [], h, hx => by
    rw [diffChildren_cons_nil, diffNode_none] at hx
    simp at hx
    exact create_mem_diffChildren c p os [] h hx
  | o :: os, n :: ns, h, hx => by
    rw [diffChildren_cons_cons] at hx
    intro y hy
    simp only [idsList, List.mem_append] at hx ⊢
    rcases hx with hx | hx
    · exact Or.inl (create_mem_diffNode c p o n h hx y hy)
    · exact Or.inr (create_mem_diffChildren c p os ns h hx y hy)
end

/-! ## Identity of aligned nodes -/

theorem nodeAt_id_mem :
    ∀ (path : List Nat) (o m : Node), nodeAt o path = some m → m.id ∈ o.ids
  | [], o, m, hm => by
    simp only [nodeAt, Option.some.injEq] at hm
    subst hm; rw [Node.ids_eq]; exact List.mem_cons_self _ _
  | i :: path, o, m, hm => by
    simp only [nodeAt] at hm
    split at hm
    · rename_i c hc
      rw [Node.ids_eq]
      exact List.mem_cons_of_mem _
        (ids_subset_of_mem (List.getElem?_mem hc) _ (nodeAt_id_mem path c m hm))
    · simp at hm

theorem aligned_nodeAt :
    ∀ (path : List Nat) (o n m : Node), Aligned path o n → nodeAt o path = some m →
      ∃ m', nodeAt n path = some m' ∧ m'.id = m.id
  | [], o, n, m, hal, hm => by
    simp only [nodeAt, Option.some.injEq] at hm
    subst hm
    exact ⟨n, rfl, hal.1.symm⟩
  | i :: path, o, n, m, hal, hm => by
    obtain ⟨_, _, o', n', ho, hn, hal'⟩ := hal
    simp only [nodeAt, ho] at hm
    obtain ⟨m', hm', e⟩ := aligned_nodeAt path o' n' m hal' hm
    exact ⟨m', by simp only [nodeAt, hn, hm'], e⟩

theorem kept_in_children (x : String) (e : Handle) :
    ∀ (os ns : List Node) (i : Nat) (o' n' : Node),
      (idsList os).Nodup → (idsList ns).Nodup →
      os[i]? = some o' → ns[i]? = some n' → x ∈ o'.ids → x ∈ n'.ids →
      Call.remove x ∉ diffNode o' (some n') e →
      (∀ c p, Call.create c p ∈ diffNode o' (some n') e → x ∉ c.ids) →
      Call.remove x ∉ diffChildren os ns e ∧
        ∀ c p, Call.create c p ∈ diffChildren os ns e → x ∉ c.ids
  | [], _, i, _, _, _, _, ho, _, _, _, _, _ => by simp at ho
  | _ :: _, [], i, _, _, _, _, _, hn, _, _, _, _ => by simp at hn
  | o :: os, n :: ns, 0, o', n', ndo, ndn, ho, hn, hxo, hxn, hrem, hcre => by
    simp only [List.getElem?_cons_zero, Option.some.injEq] at ho hn
    subst ho; subst hn
    simp only [idsList] at ndo ndn
    have hdo := (List.nodup_append.mp ndo).2.2
    have hdn := (List.nodup_append.mp ndn).2.2
    rw [diffChildren_cons_cons]
    refine ⟨?_, ?_⟩
    · intro hmem
      rcases List.mem_append.mp hmem with h1 | h1
      · exact hrem h1
      · exact hdo hxo (remove_mem_diffChildren x os ns e h1)
    · intro c p hmem hxc
      rcases List.mem_append.mp hmem with h1 | h1
      · exact hcre c p h1 hxc
      · exact hdn hxn (create_mem_diffChildren c p os ns e h1 x hxc)
  | o :: os, n :: ns, i + 1, o', n', ndo, ndn, ho, hn, hxo, hxn, hrem, hcre => by
    simp only [List.getElem?_cons_succ] at ho hn
    simp only [idsList] at ndo ndn
    obtain ⟨_, ndo', hdo⟩ := List.nodup_append.mp ndo
    obtain ⟨_, ndn', hdn⟩ := List.nodup_append.mp ndn
    have ih := kept_in_children x e os ns i o' n' ndo' ndn' ho hn hxo hxn hrem hcre
    have hxos : x ∈ idsList os := ids_subset_of_mem (List.getElem?_mem ho) x hxo
    have hxns : x ∈ idsList ns := ids_subset_of_mem (List.getElem?_mem hn) x hxn
    rw [diffChildren_cons_cons]
    refine ⟨?_, ?_⟩
    · intro hmem
      rcases List.mem_append.mp hmem with h1 | h1
      · exact hdo (remove_mem_diffNode x o (some n) e h1) hxos
      · exact ih.1 h1
    · intro c p hmem hxc
      rcases List.mem_append.mp hmem with h1 | h1
      · exact hdn (create_mem_diffNode c p o n e h1 x hxc) hxns
      · exact ih.2 c p h1 hxc

theorem kept_in_node :
    ∀ (path : List Nat) (o n m : Node) (h : Handle),
      o.ids.Nodup → n.ids.Nodup → Aligned path o n → nodeAt o path = some m →
      Call.remove m.id ∉ diffNode o (some n) h ∧
        ∀ c p, Call.create c p ∈ diffNode o (some n) h → m.id ∉ c.ids
  | [], o, n, m, h, ndo, ndn, hal, hm => by
    simp only [nodeAt, Option.some.injEq] at hm
    subst hm
    obtain ⟨hid, hty⟩ := hal
    rw [Node.ids_eq] at ndo ndn
    refine ⟨?_, ?_⟩
    · intro hmem
      rcases mem_diffNode_patch hid hty hmem with h1 | h1 | h1
      · exact remove_not_mem_textPatch _ _ _ h1
      · exact remove_not_mem_attrPatch _ _ _ h1
      · exact (List.nodup_cons.mp ndo).1 (remove_mem_diffChildren _ _ _ _ h1)
    · intro c p hmem hxc
      rcases mem_diffNode_patch hid hty hmem with h1 | h1 | h1
      · exact create_not_mem_textPatch _ _ _ _ h1
      · exact create_not_mem_attrPatch _ _ _ _ h1
      · have := create_mem_diffChildren c p _ _ _ h1 _ hxc
        rw [hid] at this
        exact (List.nodup_cons.mp ndn).1 this
  | i :: path, o, n, m, h, ndo, ndn, hal, hm => by
    obtain ⟨m', hm', hmid⟩ := aligned_nodeAt (i :: path) o n m hal hm
    obtain ⟨hid, hty, o', n', ho, hn, hal'⟩ := hal
    simp only [nodeAt, ho] at hm
    simp only [nodeAt, hn] at hm'
    rw [Node.ids_eq] at ndo ndn
    have ndo' := (List.nodup_cons.mp ndo).2
    have ndn' := (List.nodup_cons.mp ndn).2
    have ih := kept_in_node path o' n' m (Handle.byId o.id)
      (nodup_ids_of_mem (List.getElem?_mem ho) ndo')
      (nodup_ids_of_mem (List.getElem?_mem hn) ndn') hal' hm
    have hxo : m.id ∈ o'.ids := nodeAt_id_mem path o' m hm
    have hxn : m.id ∈ n'.ids := by rw [← hmid]; exact nodeAt_id_mem path n' m' hm'
    have hch := kept_in_children m.id (Handle.byId o.id) o.children n.children i o' n'
      ndo' ndn' ho hn hxo hxn ih.1 ih.2
    refine ⟨?_, ?_⟩
    · intro hmem
      rcases mem_diffNode_patch hid hty hmem with h1 | h1 | h1
      · exact remove_not_mem_textPatch _ _ _ h1
      · exact remove_not_mem_attrPatch _ _ _ h1
      · exact hch.1 h1
    · intro c p hmem hxc
      rcases mem_diffNode_patch hid hty hmem with h1 | h1 | h1
      · exact create_not_mem_textPatch _ _ _ _ h1
      · exact create_not_mem_attrPatch _ _ _ _ h1
      · exact hch.2 c p h1 hxc

/-- C3 as stated fails: the id `a` occurs with type `li` in both trees, yet on
a head insertion the reconciler removes `a` and creates it again; and with an
id that occurs twice in the previous tree, `remove(a)` is emitted although the
first node `a` stays where it was. -/
theorem identity_lost_when_position_changes :
    (("a", "li") ∈ prevAB.idTypes ∧ ("a", "li") ∈ curCAB.idTypes ∧
      ∃ calls, diffAndUpdate (some prevAB) (some curCAB) Handle.app = some calls ∧
        Call.remove "a" ∈ calls ∧ Call.create taskA (Handle.byId "root") ∈ calls ∧
        "a" ∈ taskA.ids) ∧
    (("a", "li") ∈ prevTwice.idTypes ∧ ("a", "li") ∈ (rootWith [taskA]).idTypes ∧
      ∃ calls, diffAndUpdate (some prevTwice) (some (rootWith [taskA])) Handle.app = some calls ∧
        Call.remove "a" ∈ calls) := by
  refine ⟨⟨by decide, by decide, _, rfl, ?_, ?_, by decide⟩, by decide, by decide, _, rfl, ?_⟩
  · exact List.mem_cons_self _ _
  · exact List.mem_cons_of_mem _ (List.mem_cons_of_mem _ (List.mem_cons_of_mem _
      (List.mem_cons_self _ _)))
  · exact List.mem_cons_self _ _

/-- C3, amended: in trees with pairwise distinct ids, a node that occurs at the
same position in `prev` and `cur`, with equal id and type there and at every
position above it, keeps its live element: the reconciler emits no
`remove` of its id and no `create` of a subtree that contains its id. -/
theorem aligned_node_keeps_identity (prev cur : Node) (h : Handle) (path : List Nat) (m : Node)
    (hprev : prev.ids.Nodup) (hcur : cur.ids.Nodup)
    (hal : Aligned path prev cur) (hm : nodeAt prev path = some m) :
    ∃ calls, diffAndUpdate (some prev) (some cur) h = some calls ∧
      Call.remove m.id ∉ calls ∧ ∀ c p, Call.create c p ∈ calls → m.id ∉ c.ids :=
  ⟨_, rfl, kept_in_node path prev cur m h hprev hcur hal hm⟩

/-- The sub-task `b1` at position 1, 0 of both trees is neither removed nor created. -/
theorem aligned_node_keeps_identity_witness :
    (prevAB.ids.Nodup ∧ curCB.ids.Nodup ∧ Aligned [1, 0] prevAB curCB
      ∧ nodeAt prevAB [1, 0] = some (Node.mk "b1" "li" itemAttrs [] "sub")) ∧
    ∃ calls, diffAndUpdate (some prevAB) (some curCB) Handle.app = some calls ∧
      Call.remove "b1" ∉ calls ∧ ∀ c p, Call.create c p ∈ calls → "b1" ∉ c.ids :=
  ⟨⟨by decide, by decide, ⟨rfl, rfl, _, _, rfl, rfl, rfl, rfl, _, _, rfl, rfl, rfl, rfl⟩, rfl⟩,
    aligned_node_keeps_identity prevAB curCB Handle.app [1, 0]
      (Node.mk "b1" "li" itemAttrs [] "sub") (by decide) (by decide)
      ⟨rfl, rfl, _, _, rfl, rfl, rfl, rfl, _, _, rfl, rfl, rfl, rfl⟩ rfl⟩

/-! ## The surface after a reconciliation -/

/-- C1 at a failing input: `prev` is the root with children `a`, `b` and `cur`
the root with children `c`, `b`; the roots agree and the ids of each tree are
pairwise distinct. The surface rendered from `prev` mirrors `prev`. The
reconciler removes `a` and appends `c` as the last child of the root, after
the kept `b`, so the surface ends with the children `b`, `c` and does not
mirror `cur`. -/
theorem replace_before_kept_sibling_breaks_order :
    prevAB.id = curCB.id ∧ prevAB.type = curCB.type ∧
    prevAB.ids.Nodup ∧ curCB.ids.Nodup ∧
    mirrorsList [prevAB] [renderDOM prevAB] = true ∧
    diffAndUpdate (some prevAB) (some curCB) Handle.app
      = some [Call.remove "a", Call.create taskC (Handle.byId "root")] ∧
    mirrorsList [curCB]
      (applyCalls [renderDOM prevAB]
        [Call.remove "a", Call.create taskC (Handle.byId "root")]) = false ∧
    mirrorsList [rootWith [taskB, taskC]]
      (applyCalls [renderDOM prevAB]
        [Call.remove "a", Call.create taskC (Handle.byId "root")]) = true :=
  ⟨rfl, rfl, by decide, by decide, by decide, rfl, by decide, by decide⟩

/-! ## The edit mutator -/

theorem updateText_eq (id newText : String) (n : Node) :
    updateText id newText n
      = Node.mk n.id n.type n.attributes (updateTextChildren id newText n.children)
          (if n.id = id then (if jsTrim newText = "" then n.text else jsTrim newText)
            else n.text) := by
  cases n; simp [updateText, Node.id, Node.type, Node.attributes, Node.children, Node.text]

theorem updateTextChildren_eq_map (id newText : String) :
    ∀ (cs : List Node), updateTextChildren id newText cs = cs.map (updateText id newText)
  | [] => by simp [updateTextChildren]
  | c :: cs => by simp [updateTextChildren, updateTextChildren_eq_map id newText cs]

mutual
theorem updateText_ids (id newText : String) :
    ∀ (n : Node), (updateText id newText n).ids = n.ids
  | .mk i t a cs x => by
    simp only [updateText, Node.ids, updateTextChildren_ids id newText cs]
theorem updateTextChildren_ids (id newText : String) :
    ∀ (cs : List Node), idsList (updateTextChildren id newText cs) = idsList cs
  | [] => by simp [updateTextChildren]
  | c :: cs => by
    simp only [updateTextChildren, idsList, updateText_ids id newText c,
      updateTextChildren_ids id newText cs]
end

mutual
theorem updateText_blank (id newText : String) (hb : jsTrim newText = "") :
    ∀ (n : Node), updateText id newText n = n
  | .mk i t a cs x => by
    simp only [updateText, hb, if_true, ite_self, updateTextChildren_blank id newText hb cs]
theorem updateTextChildren_blank (id newText : String) (hb : jsTrim newText = "") :
    ∀ (cs : List Node), updateTextChildren id newText cs = cs
  | [] => by simp [updateTextChildren]
  | c :: cs => by
    simp only [updateTextChildren, updateText_blank id newText hb c,
      updateTextChildren_blank id newText hb cs]
end

/-- C11: `editTask(id)` with the new text `newText` returns, and it turns the
current tree into the tree of the same shape in which every node keeps its id,
type and attributes, its children are the former children in their order, each
edited in turn, and its text is the trimmed new text when its id is `id` and
the trimmed new text is not empty, and its former text otherwise. Every node
with the id is updated, the ids of the tree stay as they were, and a new text
that is blank after trimming changes nothing. -/
theorem editTask_current_tree (id newText : String) (s : State) :
    (∃ calls s', editTask id (some newText) s = some (calls, s')
        ∧ s'.vDOM = updateText id newText s.vDOM) ∧
    (∀ n : Node, updateText id newText n
        = Node.mk n.id n.type n.attributes (n.children.map (updateText id newText))
            (if n.id = id ∧ jsTrim newText ≠ "" then jsTrim newText else n.text)) ∧
    (∀ n : Node, (updateText id newText n).ids = n.ids) ∧
    (jsTrim newText = "" → ∀ n : Node, updateText id newText n = n) := by
  refine ⟨⟨_, _, rfl, rfl⟩, ?_, updateText_ids id newText, updateText_blank id newText⟩
  intro n
  rw [updateText_eq, updateTextChildren_eq_map]
  by_cases h1 : n.id = id <;> by_cases h2 : jsTrim newText = "" <;> simp [h1, h2]

/-! ## The add mutators -/

theorem refreshDOM_eq (s : State) :
    refreshDOM s
      = some (diffNode s.prevVDOM (some s.vDOM) Handle.app, { s with prevVDOM := s.vDOM }) := by
  rfl

theorem addTask_blank (inputValue newId : String) (s : State) (hb : jsTrim inputValue = "") :
    addTask inputValue newId s = some ([], s) := by
  simp [addTask, hb]

theorem addTask_nonblank (inputValue newId : String) (s : State)
    (hb : jsTrim inputValue ≠ "") :
    addTask inputValue newId s
      = refreshDOM { s with
          vDOM := pushChild s.vDOM (createNode newId "li" itemAttrs [] (jsTrim inputValue)) } := by
  simp [addTask, hb]

/-- C13: `addTask` returns. When the input is empty after trimming, the state
is as it was and no call is made. Otherwise the root keeps its id, type,
attributes and text, and its children are the former children, unchanged and
in their order, followed by one new node of type `li` with the trimmed input as
text and no children. -/
theorem addTask_appends_to_root (inputValue newId : String) (s : State) :
    ∃ calls s', addTask inputValue newId s = some (calls, s') ∧
      (jsTrim inputValue = "" → calls = [] ∧ s' = s) ∧
      (jsTrim inputValue ≠ "" →
        s'.vDOM = Node.mk s.vDOM.id s.vDOM.type s.vDOM.attributes
          (s.vDOM.children ++ [Node.mk newId "li" itemAttrs [] (jsTrim inputValue)])
          s.vDOM.text) := by
  by_cases hb : jsTrim inputValue = ""
  · exact ⟨[], s, addTask_blank _ _ _ hb, fun _ => ⟨rfl, rfl⟩, fun h => absurd hb h⟩
  · rw [addTask_nonblank _ _ _ hb, refreshDOM_eq]
    exact ⟨_, _, rfl, fun h => absurd h hb, fun _ => rfl⟩

theorem Node.children_mk (i t : String) (a : Attrs) (cs : List Node) (x : String) :
    (Node.mk i t a cs x).children = cs := rfl

theorem Node.id_mk (i t : String) (a : Attrs) (cs : List Node) (x : String) :
    (Node.mk i t a cs x).id = i := rfl

theorem nodeAt_nil (t : Node) : nodeAt t [] = some t := by
  cases t; rfl

theorem nodeAt_cons (t : Node) (i : Nat) (path : List Nat) :
    nodeAt t (i :: path) = (t.children[i]?).bind (fun c => nodeAt c path) := by
  cases hc : t.children[i]? with
  | none => simp only [nodeAt, hc]; rfl
  | some c => simp only [nodeAt, hc]; rfl

theorem pushChildAt_nil (c t : Node) : pushChildAt c [] t = pushChild t c := by
  cases t; rfl

theorem pushChildAt_cons_some (c t ch : Node) (i : Nat) (path : List Nat)
    (h : t.children[i]? = some ch) :
    pushChildAt c (i :: path) t
      = Node.mk t.id t.type t.attributes (t.children.set i (pushChildAt c path ch)) t.text := by
  cases t
  simp only [Node.children] at h
  simp only [pushChildAt, h, Node.id, Node.type, Node.attributes, Node.children, Node.text]

theorem pushChildAt_cons_none (c t : Node) (i : Nat) (path : List Nat)
    (h : t.children[i]? = none) : pushChildAt c (i :: path) t = t := by
  cases t
  simp only [Node.children] at h
  simp only [pushChildAt, h]

theorem pushChildAt_label (c : Node) (path : List Nat) (t : Node) :
    (pushChildAt c path t).id = t.id ∧ (pushChildAt c path t).type = t.type
      ∧ (pushChildAt c path t).attributes = t.attributes
      ∧ (pushChildAt c path t).text = t.text
      ∧ (path ≠ [] → (pushChildAt c path t).children.length = t.children.length) := by
  cases path with
  | nil => rw [pushChildAt_nil]; exact ⟨rfl, rfl, rfl, rfl, fun h => absurd rfl h⟩
  | cons i p =>
    cases hc : t.children[i]? with
    | none => rw [pushChildAt_cons_none c t i p hc]; exact ⟨rfl, rfl, rfl, rfl, fun _ => rfl⟩
    | some ch =>
      rw [pushChildAt_cons_some c t ch i p hc]
      exact ⟨rfl, rfl, rfl, rfl, fun _ => by simp [Node.children_mk]⟩

/-- Above and at the position of the push, the node of the new tree is the
former node after the push at the rest of the position. -/
theorem nodeAt_pushChildAt_above (c : Node) (r : List Nat) :
    ∀ (q : List Nat) (t : Node),
      nodeAt (pushChildAt c (q ++ r) t) q = (nodeAt t q).map (pushChildAt c r)
  | [], t => by simp [nodeAt_nil]
  | i :: q, t => by
    cases hc : t.children[i]? with
    | none =>
      rw [List.cons_append, pushChildAt_cons_none c t i _ hc, nodeAt_cons, hc]; rfl
    | some ch =>
      have hlt : i < t.children.length := by
        rcases List.getElem?_eq_some.mp hc with ⟨h, _⟩; exact h
      rw [List.cons_append, pushChildAt_cons_some c t ch i _ hc, nodeAt_cons, nodeAt_cons, hc]
      simp only [Node.children_mk, List.getElem?_set_self hlt, Option.some_bind]
      exact nodeAt_pushChildAt_above c r q ch

theorem nodeAt_leaf (c : Node) (hc : c.children = []) (i : Nat) (r : List Nat) :
    nodeAt c (i :: r) = none := by
  rw [nodeAt_cons, hc]; rfl

/-- Away from the position of the push and from the new child, the tree is as
it was. -/
theorem nodeAt_pushChildAt_apart (c : Node) (hc : c.children = []) :
    ∀ (path : List Nat) (t n : Node) (q : List Nat), nodeAt t path = some n →
      (∀ r, path ≠ q ++ r) → q ≠ path ++ [n.children.length] →
      nodeAt (pushChildAt c path t) q = nodeAt t q
  | [], t, n, q, hn, hpre, hnew => by
    rw [nodeAt_nil] at hn
    cases hn
    cases q with
    | nil => exact absurd rfl (hpre [])
    | cons k r =>
      rw [pushChildAt_nil, nodeAt_cons, nodeAt_cons]
      simp only [pushChild, Node.children_mk]
      rcases Nat.lt_trichotomy k t.children.length with hk | hk | hk
      · rw [List.getElem?_append_left hk]
      · subst hk
        rw [List.getElem?_concat_length, List.getElem?_length]
        cases r with
        | nil => exact absurd rfl hnew
        | cons j r' => simp [nodeAt_leaf c hc]
      · rw [List.getElem?_eq_none (by simp; omega), List.getElem?_eq_none (by omega)]
  | i :: p, t, n, q, hn, hpre, hnew => by
    rw [nodeAt_cons] at hn
    cases hch : t.children[i]? with
    | none => rw [pushChildAt_cons_none c t i p hch]
    | some ch =>
      rw [hch] at hn
      simp only [Option.some_bind] at hn
      have hlt : i < t.children.length := by
        rcases List.getElem?_eq_some.mp hch with ⟨h, _⟩; exact h
      cases q with
      | nil => exact absurd rfl (hpre (i :: p))
      | cons k r =>
        rw [pushChildAt_cons_some c t ch i p hch, nodeAt_cons, nodeAt_cons]
        simp only [Node.children_mk]
        by_cases hk : i = k
        · subst hk
          rw [List.getElem?_set_self hlt, hch]
          simp only [Option.some_bind]
          apply nodeAt_pushChildAt_apart c hc p ch n r hn
          · intro r' e; exact hpre r' (by rw [e]; rfl)
          · intro e; exact hnew (by rw [e]; rfl)
        · rw [List.getElem?_set_ne hk]

theorem jsTrim_empty : jsTrim "" = "" := by decide

theorem addSubTask_attached (path : List Nat) (text newId : String) (s : State)
    (hb : jsTrim text ≠ "") :
    addSubTask (some (Selection.attached path)) (some text) newId s
      = refreshDOM { s with
          vDOM := pushChildAt (createNode newId "li" itemAttrs [] (jsTrim text)) path s.vDOM } := by
  have h : ¬ (text = "" ∨ jsTrim text = "") := by
    rintro (e | e)
    · exact hb (by rw [e]; exact jsTrim_empty)
    · exact hb e
  simp only [addSubTask, h, if_false]

theorem addSubTask_detached (text newId : String) (s : State) (hb : jsTrim text ≠ "") :
    addSubTask (some Selection.detached) (some text) newId s = refreshDOM s := by
  have h : ¬ (text = "" ∨ jsTrim text = "") := by
    rintro (e | e)
    · exact hb (by rw [e]; exact jsTrim_empty)
    · exact hb e
  simp only [addSubTask, h, if_false]

theorem addSubTask_nothing (selectedNode : Option Selection) (promptResult : Option String)
    (newId : String) (s : State)
    (h : selectedNode = none ∨ promptResult = none
      ∨ ∃ text, promptResult = some text ∧ jsTrim text = "") :
    addSubTask selectedNode promptResult newId s = some ([], s) := by
  rcases h with h | h | ⟨text, h, hb⟩
  · subst h; rfl
  · subst h; cases selectedNode <;> rfl
  · subst h
    cases selectedNode with
    | none => rfl
    | some sel => simp [addSubTask, hb]

/-- C14: `addSubTask` returns. When no node is selected, or the prompt is
cancelled, or the text is empty after trimming, the state is as it was and no
call is made. Otherwise, when the selected node is the node at a position of
the current tree, the node at that position keeps its id, type, attributes and
text and its children are the former children followed by one new `li` node
with the trimmed text and no children; every position that is neither above
the selected one nor the new child holds what it held; and every node above the
selected one keeps its id, type, attributes, text and number of children. -/
theorem addSubTask_appends_to_selected (selectedNode : Option Selection)
    (promptResult : Option String) (newId : String) (s : State) :
    ∃ calls s', addSubTask selectedNode promptResult newId s = some (calls, s') ∧
      ((selectedNode = none ∨ promptResult = none
          ∨ ∃ text, promptResult = some text ∧ jsTrim text = "") → calls = [] ∧ s' = s) ∧
      (∀ path text n, selectedNode = some (Selection.attached path) →
        promptResult = some text → jsTrim text ≠ "" → nodeAt s.vDOM path = some n →
        nodeAt s'.vDOM path
            = some (Node.mk n.id n.type n.attributes
                (n.children ++ [Node.mk newId "li" itemAttrs [] (jsTrim text)]) n.text) ∧
        (∀ q, (∀ r, path ≠ q ++ r) → q ≠ path ++ [n.children.length] →
            nodeAt s'.vDOM q = nodeAt s.vDOM q) ∧
        (∀ q r m, path = q ++ r → r ≠ [] → nodeAt s.vDOM q = some m →
            ∃ m', nodeAt s'.vDOM q = some m' ∧ m'.id = m.id ∧ m'.type = m.type
              ∧ m'.attributes = m.attributes ∧ m'.text = m.text
              ∧ m'.children.length = m.children.length)) := by
  by_cases hnothing : selectedNode = none ∨ promptResult = none
      ∨ ∃ text, promptResult = some text ∧ jsTrim text = ""
  · refine ⟨[], s, addSubTask_nothing _ _ _ _ hnothing, fun _ => ⟨rfl, rfl⟩, ?_⟩
    intro path text n hsel hprompt hb _
    rcases hnothing with h | h | ⟨t, h, hb'⟩
    · rw [hsel] at h; cases h
    · rw [hprompt] at h; cases h
    · rw [hprompt] at h; cases h; exact absurd hb' hb
  · obtain ⟨sel, hsel⟩ : ∃ sel, selectedNode = some sel := by
      cases selectedNode with
      | none => exact absurd (Or.inl rfl) hnothing
      | some sel => exact ⟨sel, rfl⟩
    obtain ⟨text0, hprompt0⟩ : ∃ text, promptResult = some text := by
      cases promptResult with
      | none => exact absurd (Or.inr (Or.inl rfl)) hnothing
      | some text => exact ⟨text, rfl⟩
    have hb0 : jsTrim text0 ≠ "" := fun e => hnothing (Or.inr (Or.inr ⟨text0, hprompt0, e⟩))
    subst hsel; subst hprompt0
    cases sel with
    | detached =>
      rw [addSubTask_detached _ _ _ hb0, refreshDOM_eq]
      refine ⟨_, _, rfl, fun h => absurd h hnothing, ?_⟩
      intro path text n hsel
      cases hsel
    | attached path0 =>
      rw [addSubTask_attached _ _ _ _ hb0, refreshDOM_eq]
      refine ⟨_, _, rfl, fun h => absurd h hnothing, ?_⟩
      intro path text n hsel hprompt hb hn
      cases hsel; cases hprompt
      refine ⟨?_, ?_, ?_⟩
      · have := nodeAt_pushChildAt_above
          (createNode newId "li" itemAttrs [] (jsTrim text0)) [] path0 s.vDOM
        simp only [List.append_nil] at this
        simp only [this, hn, Option.map_some', pushChildAt_nil]
        rfl
      · intro q hq hnew
        exact nodeAt_pushChildAt_apart (createNode newId "li" itemAttrs [] (jsTrim text0)) rfl
          path0 s.vDOM n q hn hq hnew
      · intro q r m hpath hr hm
        subst hpath
        have habove := nodeAt_pushChildAt_above
          (createNode newId "li" itemAttrs [] (jsTrim text0)) r q s.vDOM
        have hl := pushChildAt_label (createNode newId "li" itemAttrs [] (jsTrim text0)) r m
        refine ⟨_, ?_, hl.1, hl.2.1, hl.2.2.1, hl.2.2.2.1, hl.2.2.2.2 hr⟩
        simp only [habove, hm, Option.map_some']

theorem editTask_some (id newText : String) (s : State) :
    editTask id (some newText) s
      = some (diffNode s.prevVDOM (some (updateText id newText s.vDOM)) Handle.app,
          { vDOM := updateText id newText s.vDOM, prevVDOM := updateText id newText s.vDOM }) := by
  rfl

theorem removeTask_eq (id : String) (s : State) :
    removeTask id s
      = some (diffNode s.prevVDOM (some (removeNode id s.vDOM)) Handle.app,
          { vDOM := removeNode id s.vDOM, prevVDOM := removeNode id s.vDOM }) := by
  rfl

theorem addTask_eq (inputValue newId : String) (s : State) (hb : jsTrim inputValue ≠ "") :
    addTask inputValue newId s
      = some (diffNode s.prevVDOM
            (some (pushChild s.vDOM (createNode newId "li" itemAttrs [] (jsTrim inputValue))))
            Handle.app,
          { vDOM := pushChild s.vDOM (createNode newId "li" itemAttrs [] (jsTrim inputValue)),
            prevVDOM :=
              pushChild s.vDOM (createNode newId "li" itemAttrs [] (jsTrim inputValue)) }) := by
  rw [addTask_nonblank _ _ _ hb]; rfl

/-! ## The snapshot after an entry point -/

theorem addSubTask_cases (selectedNode : Option Selection) (promptResult : Option String)
    (newId : String) (s : State) :
    addSubTask selectedNode promptResult newId s = some ([], s) ∨
    (∃ path text, jsTrim text ≠ "" ∧ selectedNode = some (Selection.attached path)
      ∧ promptResult = some text
      ∧ addSubTask selectedNode promptResult newId s
          = refreshDOM { s with
              vDOM := pushChildAt (createNode newId "li" itemAttrs [] (jsTrim text)) path
                s.vDOM }) ∨
    (∃ text, jsTrim text ≠ "" ∧ selectedNode = some Selection.detached
      ∧ promptResult = some text
      ∧ addSubTask selectedNode promptResult newId s = refreshDOM s) := by
  cases selectedNode with
  | none => exact Or.inl rfl
  | some sel =>
    cases promptResult with
    | none => exact Or.inl rfl
    | some text =>
      by_cases hb : jsTrim text = ""
      · exact Or.inl (addSubTask_nothing _ _ _ _ (Or.inr (Or.inr ⟨text, rfl, hb⟩)))
      · cases sel with
        | attached path =>
          exact Or.inr (Or.inl ⟨path, text, hb, rfl, rfl, addSubTask_attached _ _ _ _ hb⟩)
        | detached =>
          exact Or.inr (Or.inr ⟨text, hb, rfl, rfl, addSubTask_detached _ _ _ hb⟩)

/-! ## Distinct ids -/

theorem idsList_append : ∀ (as bs : List Node), idsList (as ++ bs) = idsList as ++ idsList bs
  | [], bs => by simp [idsList]
  | a :: as, bs => by simp [idsList, idsList_append as bs]

theorem pushChild_ids (t c : Node) : (pushChild t c).ids = t.ids ++ c.ids := by
  rw [Node.ids_eq t]
  simp [pushChild, Node.ids, idsList_append, idsList]

theorem idsList_set_perm (extra : List String) (x ch : Node)
    (hx : x.ids.Perm (extra ++ ch.ids)) :
    ∀ (cs : List Node) (i : Nat), cs[i]? = some ch →
      (idsList (cs.set i x)).Perm (extra ++ idsList cs)
  | [], i, h => by simp at h
  | c :: cs, 0, h => by
    simp only [List.getElem?_cons_zero, Option.some.injEq] at h
    subst h
    simp only [List.set_cons_zero, idsList]
    rw [← List.append_assoc]
    exact hx.append_right _
  | c :: cs, i + 1, h => by
    simp only [List.getElem?_cons_succ] at h
    simp only [List.set_cons_succ, idsList]
    have ih := idsList_set_perm extra x ch hx cs i h
    exact (ih.append_left c.ids).trans
      ((List.perm_append_comm_assoc c.ids extra (idsList cs)))

/-- A push at a position of the tree adds the ids of the child to the ids of
the tree; a push at a position outside the tree changes nothing. -/
theorem pushChildAt_ids (c : Node) :
    ∀ (path : List Nat) (t : Node),
      (pushChildAt c path t).ids.Perm (c.ids ++ t.ids) ∨ pushChildAt c path t = t
  | [], t => by
    left
    rw [pushChildAt_nil, pushChild_ids]
    exact List.perm_append_comm
  | i :: path, t => by
    cases hch : t.children[i]? with
    | none => exact Or.inr (pushChildAt_cons_none c t i path hch)
    | some ch =>
      rcases pushChildAt_ids c path ch with ih | ih
      · left
        rw [pushChildAt_cons_some c t ch i path hch, Node.ids_eq t]
        simp only [Node.ids]
        have := idsList_set_perm c.ids _ ch ih t.children i hch
        exact (this.cons t.id).trans (List.perm_middle.symm)
      · right
        rw [pushChildAt_cons_some c t ch i path hch, ih]
        have hset : t.children.set i ch = t.children := by
          apply List.ext_getElem? 
          intro j
          by_cases hj : i = j
          · subst hj
            rw [List.getElem?_set_self (by
              rcases List.getElem?_eq_some.mp hch with ⟨h, _⟩; exact h), hch]
          · rw [List.getElem?_set_ne hj]
        rw [hset]
        cases t; rfl

/-- C17: when the ids of the current tree are pairwise distinct, they are
pairwise distinct after `editTask`, which leaves the ids of the tree as they
are, after `removeTask`, which leaves the ids that survive as they are and in
their order, and after `addTask` and `addSubTask` when the id drawn for the new
node does not occur in the tree. -/
theorem ids_stay_distinct (s : State) (hdistinct : s.vDOM.ids.Nodup) :
    (∀ id promptResult, ∃ calls s', editTask id promptResult s = some (calls, s')
        ∧ s'.vDOM.ids = s.vDOM.ids ∧ s'.vDOM.ids.Nodup) ∧
    (∀ id, ∃ calls s', removeTask id s = some (calls, s')
        ∧ s'.vDOM.ids.Sublist s.vDOM.ids ∧ s'.vDOM.ids.Nodup) ∧
    (∀ inputValue newId, newId ∉ s.vDOM.ids →
        ∃ calls s', addTask inputValue newId s = some (calls, s') ∧ s'.vDOM.ids.Nodup) ∧
    (∀ selectedNode promptResult newId, newId ∉ s.vDOM.ids →
        ∃ calls s', addSubTask selectedNode promptResult newId s = some (calls, s')
          ∧ s'.vDOM.ids.Nodup) := by
  refine ⟨?_, ?_, ?_, ?_⟩
  · intro id promptResult
    cases promptResult with
    | none => exact ⟨[], s, rfl, rfl, hdistinct⟩
    | some newText =>
      refine ⟨_, _, editTask_some _ _ _, updateText_ids _ _ _, ?_⟩
      simp only [updateText_ids]
      exact hdistinct
  · intro id
    exact ⟨_, _, removeTask_eq _ _, removeNode_ids_sublist _ _,
      hdistinct.sublist (removeNode_ids_sublist _ _)⟩
  · intro inputValue newId hnew
    by_cases hb : jsTrim inputValue = ""
    · exact ⟨[], s, addTask_blank _ _ _ hb, hdistinct⟩
    · refine ⟨_, _, addTask_eq _ _ _ hb, ?_⟩
      have hc : (createNode newId "li" itemAttrs [] (jsTrim inputValue)).ids = [newId] := rfl
      show (pushChild s.vDOM _).ids.Nodup
      rw [pushChild_ids, hc]
      exact List.nodup_append.mpr
        ⟨hdistinct, List.nodup_singleton _, by simpa using hnew⟩
  · intro selectedNode promptResult newId hnew
    rcases addSubTask_cases selectedNode promptResult newId s with h | ⟨path, text, _, _, _, h⟩
      | ⟨_, _, _, _, h⟩
    · exact ⟨[], s, h, hdistinct⟩
    · rw [h, refreshDOM_eq]
      refine ⟨_, _, rfl, ?_⟩
      simp only
      rcases pushChildAt_ids (createNode newId "li" itemAttrs [] (jsTrim text)) path s.vDOM
        with hp | hp
      · refine hp.nodup_iff.mpr ?_
        have hc : (createNode newId "li" itemAttrs [] (jsTrim text)).ids = [newId] := rfl
        rw [hc]
        exact List.nodup_cons.mpr ⟨hnew, hdistinct⟩
      · rw [hp]; exact hdistinct
    · rw [h, refreshDOM_eq]
      exact ⟨_, _, rfl, hdistinct⟩

/-- The sample tree, the new id `n` and the selected node `b`. -/
theorem ids_stay_distinct_witness :
    sampleState.vDOM.ids.Nodup ∧
    (∃ calls s', addSubTask (some (Selection.attached [1])) (some "sub 2") "n" sampleState
        = some (calls, s') ∧ s'.vDOM.ids.Nodup) :=
  ⟨by decide, (ids_stay_distinct sampleState (by decide)).2.2.2
    (some (Selection.attached [1])) (some "sub 2") "n" (by decide)⟩

/-! ## Runs and the schedule -/

theorem Run.andThen_failure_none (first next : Run) :
    (first.andThen next).failure = none ↔ first.failure = none ∧ next.failure = none := by
  unfold Run.andThen
  cases h : first.failure with
  | none => simp
  | some f => simp [h]

theorem Run.andThen_calls (first next : Run) (h : first.failure = none) :
    (first.andThen next).calls = first.calls ++ next.calls := by
  unfold Run.andThen
  simp [h]

theorem Run.andThen_returned (calls : List Call) (next : Run) :
    (Run.returned calls).andThen next = { calls := calls ++ next.calls, failure := next.failure } := by
  rfl

theorem Run.andThen_failed (first next : Run) (f : Failure) (h : first.failure = some f) :
    first.andThen next = first := by
  unfold Run.andThen
  simp [h]

theorem attrLoopRun_same (i : String) (a : Attrs) :
    ∀ (l : List (String × String)), (∀ p ∈ l, a.get p.1 = some p.2) →
      attrLoopRun i a l = Run.returned []
  | [], _ => rfl
  | (k, v) :: rest, h => by
    have h1 : a.get k = some v := h (k, v) (List.mem_cons_self _ _)
    simp only [attrLoopRun, h1, ne_eq, not_true_eq_false, if_false]
    exact attrLoopRun_same i a rest (fun p hp => h p (List.mem_cons_of_mem _ hp))

theorem attrLoopRun_self (i : String) (a : Attrs) : attrLoopRun i a a.entries = Run.returned [] :=
  attrLoopRun_same i a a.entries (fun p hp => getEntry_of_mem p.1 p.2 _ a.nodup hp)

/-- When the attribute loop returns, its calls are those of the schedule. -/
theorem attrLoopRun_returns (i : String) (a : Attrs) :
    ∀ (l : List (String × String)), (attrLoopRun i a l).failure = none →
      (attrLoopRun i a l).calls = attrLoop i a l
  | [], _ => rfl
  | (k, v) :: rest, h => by
    by_cases hkv : a.get k = some v
    · simp only [attrLoopRun, attrLoop, hkv, ne_eq, not_true_eq_false, if_false] at h ⊢
      exact attrLoopRun_returns i a rest h
    · by_cases hk : isSimpleName k = true
      · simp only [attrLoopRun, attrLoop, hkv, ne_eq, not_false_eq_true, if_true, hk] at h ⊢
        rw [Run.andThen_returned] at h ⊢
        simp only at h ⊢
        rw [attrLoopRun_returns i a rest h]
        rfl
      · simp [attrLoopRun, hkv, hk, Run.failed] at h

theorem forLoop_succ (body : Nat → Run) :
    ∀ (remaining i : Nat),
      forLoop body (i + 1) remaining = forLoop (fun j => body (j + 1)) i remaining
  | 0, i => by simp [forLoop]
  | remaining + 1, i => by
    simp only [forLoop, forLoop_succ body remaining (i + 1)]

theorem forLoop_step (body : Nat → Run) (k : Nat) :
    forLoop body 0 (k + 1) = (body 0).andThen (forLoop (fun j => body (j + 1)) 0 k) := by
  simp only [forLoop, forLoop_succ body k 0]

/-- When the index loop over two sequences of children returns, its calls are
those of `diffChildren`, provided each call that returns makes the scheduled
calls. -/
theorem forLoop_children_returns (fuel : Nat) (e : Handle)
    (hrun : ∀ (o n : Option Node), (diffAndUpdateRun fuel o n e).failure = none →
      diffAndUpdate o n e = some (diffAndUpdateRun fuel o n e).calls) :
    ∀ (os ns : List Node),
      (forLoop (fun i => diffAndUpdateRun fuel os[i]? ns[i]? e) 0
        (max os.length ns.length)).failure = none →
      (forLoop (fun i => diffAndUpdateRun fuel os[i]? ns[i]? e) 0
        (max os.length ns.length)).calls = diffChildren os ns e
  | [], [], _ => by simp [forLoop, Run.returned, diffChildren]
  | [], n :: ns, h => by
    have hlen : max ([] : List Node).length (n :: ns).length
        = max ([] : List Node).length ns.length + 1 := by simp
    rw [hlen, forLoop_step] at h ⊢
    simp only [List.getElem?_nil, List.getElem?_cons_zero, List.getElem?_cons_succ] at h ⊢
    obtain ⟨h1, h2⟩ := (Run.andThen_failure_none _ _).mp h
    have ih := forLoop_children_returns fuel e hrun [] ns (by simpa using h2)
    have h0 := hrun none (some n) h1
    simp only [diffAndUpdate, Option.some.injEq] at h0
    rw [Run.andThen_calls _ _ h1, ← h0, diffChildren_nil_left, List.map_cons,
      ← diffChildren_nil_left]
    simp only [List.getElem?_nil] at ih
    rw [ih]; rfl
  | o :: os, [], h => by
    have hlen : max (o :: os).length ([] : List Node).length
        = max os.length ([] : List Node).length + 1 := by simp
    rw [hlen, forLoop_step] at h ⊢
    simp only [List.getElem?_nil, List.getElem?_cons_zero, List.getElem?_cons_succ] at h ⊢
    obtain ⟨h1, h2⟩ := (Run.andThen_failure_none _ _).mp h
    have ih := forLoop_children_returns fuel e hrun os [] (by simpa using h2)
    have h0 := hrun (some o) none h1
    simp only [diffAndUpdate, Option.some.injEq] at h0
    rw [Run.andThen_calls _ _ h1, ← h0, diffChildren_cons_nil]
    simp only [List.getElem?_nil] at ih
    rw [ih]
  | o :: os, n :: ns, h => by
    have hlen : max (o :: os).length (n :: ns).length = max os.length ns.length + 1 := by
      simp [Nat.succ_max_succ]
    rw [hlen, forLoop_step] at h ⊢
    simp only [List.getElem?_cons_zero, List.getElem?_cons_succ] at h ⊢
    obtain ⟨h1, h2⟩ := (Run.andThen_failure_none _ _).mp h
    have ih := forLoop_children_returns fuel e hrun os ns h2
    have h0 := hrun (some o) (some n) h1
    simp only [diffAndUpdate, Option.some.injEq] at h0
    rw [Run.andThen_calls _ _ h1, ← h0, diffChildren_cons_cons, ih]

/-- A run that returns has made the calls of the schedule: the calls of
`diffAndUpdate`, which are those of `diffNode` when the old node is present. -/
theorem diffAndUpdateRun_returns :
    ∀ (fuel : Nat) (o n : Option Node) (h : Handle),
      (diffAndUpdateRun fuel o n h).failure = none →
      diffAndUpdate o n h = some (diffAndUpdateRun fuel o n h).calls
  | 0, _, _, _, hr => by simp [diffAndUpdateRun, Run.failed] at hr
  | fuel + 1, none, none, _, hr => by simp [diffAndUpdateRun, Run.failed] at hr
  | fuel + 1, none, some n, h, hr => by
    simp only [diffAndUpdateRun, renderDOMRun] at hr ⊢
    by_cases hn : renderable n = true
    · simp [hn, Run.returned, diffAndUpdate]
    · simp [hn, Run.failed] at hr
  | fuel + 1, some o, none, h, hr => by
    simp only [diffAndUpdateRun] at hr ⊢
    cases hs : selectById o.id with
    | some f => simp [hs, Run.failed] at hr
    | none => simp [Run.returned, diffAndUpdate, diffNode_none]
  | fuel + 1, some o, some n, h, hr => by
    simp only [diffAndUpdateRun] at hr ⊢
    cases hs : selectById o.id with
    | some f => simp [hs, Run.failed] at hr
    | none =>
      simp only [hs] at hr
      by_cases hne : o.type ≠ n.type ∨ o.id ≠ n.id
      · simp only [hne, if_true, renderDOMRun] at hr ⊢
        by_cases hn : renderable n = true
        · simp [hn, Run.returned, Run.andThen, diffAndUpdate, diffNode_replace o n h hne]
        · simp [hn, Run.failed, Run.returned, Run.andThen] at hr
      · have hid : o.id = n.id := by by_contra hc; exact hne (Or.inr hc)
        have hty : o.type = n.type := by by_contra hc; exact hne (Or.inl hc)
        simp only [hne, if_false] at hr ⊢
        obtain ⟨h12, h3⟩ := (Run.andThen_failure_none _ _).mp hr
        obtain ⟨_, h2⟩ := (Run.andThen_failure_none _ _).mp h12
        have hloop := forLoop_children_returns fuel (Handle.byId o.id)
          (fun o' n' hr' => diffAndUpdateRun_returns fuel o' n' _ hr') o.children n.children h3
        rw [Run.andThen_calls _ _ h12, Run.andThen_calls _ _ rfl, hloop,
          attrLoopRun_returns _ _ _ h2]
        simp only [diffAndUpdate, diffNode_patch o n h hid hty, attrPatch, Run.returned]

/-! ## The bound on the depth of the calls -/

theorem Run.andThen_failure (first next : Run) :
    (first.andThen next).failure
      = match first.failure with
        | some f => some f
        | none => next.failure := by
  unfold Run.andThen
  cases h : first.failure <;> simp [h]

theorem heightList_lt {fuel : Nat} :
    ∀ {cs : List Node} {c : Node}, heightList cs < fuel → c ∈ cs → c.height < fuel
  | [], _, _, hc => by simp at hc
  | d :: ds, c, h, hc => by
    simp only [heightList] at h
    rcases List.mem_cons.mp hc with e | hc
    · subst e; omega
    · exact heightList_lt (by omega) hc

theorem Node.height_eq (n : Node) : n.height = heightList n.children + 1 := by
  cases n; rfl

theorem forLoop_fuel (body : Nat → Run)
    (hbody : ∀ j, (body j).failure ≠ some Failure.outOfFuel) :
    ∀ (remaining i : Nat), (forLoop body i remaining).failure ≠ some Failure.outOfFuel
  | 0, i => by simp [forLoop, Run.returned]
  | remaining + 1, i => by
    simp only [forLoop, Run.andThen_failure]
    cases hb : (body i).failure with
    | some f =>
      simp only
      rw [← hb]; exact hbody i
    | none => exact forLoop_fuel body hbody remaining (i + 1)

theorem selectById_fuel (id : String) (f : Failure) (hf : selectById id = some f) :
    f ≠ Failure.outOfFuel := by
  simp only [selectById] at hf
  split at hf
  · cases hf
  · split at hf
    · cases hf; decide
    · cases hf; decide

theorem attrLoopRun_fuel (i : String) (a : Attrs) :
    ∀ (l : List (String × String)), (attrLoopRun i a l).failure ≠ some Failure.outOfFuel
  | [] => by simp [attrLoopRun, Run.returned]
  | (k, v) :: rest => by
    simp only [attrLoopRun]
    split
    · split
      · simp only [Run.andThen_failure, Run.returned]
        exact attrLoopRun_fuel i a rest
      · simp [Run.failed]
    · exact attrLoopRun_fuel i a rest

/-- With a bound above the height of the old tree, the run does not end for
want of fuel: it returns or it ends as the program does. -/
theorem diffAndUpdateRun_fuel :
    ∀ (fuel : Nat) (o n : Option Node) (h : Handle),
      (∀ x, o = some x → x.height < fuel) → 0 < fuel →
      (diffAndUpdateRun fuel o n h).failure ≠ some Failure.outOfFuel
  | 0, _, _, _, _, hpos => by omega
  | fuel + 1, none, none, _, _, _ => by simp [diffAndUpdateRun, Run.failed]
  | fuel + 1, none, some n, h, _, _ => by
    simp only [diffAndUpdateRun, renderDOMRun]
    split <;> simp [Run.returned, Run.failed]
  | fuel + 1, some o, none, h, _, _ => by
    simp only [diffAndUpdateRun]
    cases hs : selectById o.id with
    | some f => simp [Run.failed, selectById_fuel o.id f hs]
    | none => simp [Run.returned]
  | fuel + 1, some o, some n, h, hlt, _ => by
    have ho : o.height < fuel + 1 := hlt o rfl
    have hch : heightList o.children < fuel := by rw [Node.height_eq] at ho; omega
    have hloop := forLoop_fuel
      (fun i => diffAndUpdateRun fuel o.children[i]? n.children[i]? (Handle.byId o.id))
      (fun j => diffAndUpdateRun_fuel fuel _ _ _
        (fun x hx => heightList_lt hch (List.getElem?_mem hx)) (by omega))
      (max o.children.length n.children.length) 0
    simp only [diffAndUpdateRun]
    cases hs : selectById o.id with
    | some f =>
      have := selectById_fuel o.id f hs
      split <;> simp [Run.failed, this]
    | none =>
      split
      · simp only [Run.andThen_failure, Run.returned, renderDOMRun]
        split <;> simp [Run.returned, Run.failed]
      · simp only [Run.andThen_failure]
        cases ha : (attrLoopRun o.id o.attributes n.attributes.entries).failure with
        | none => simpa [Run.returned, ha] using hloop
        | some f =>
          simp only [Run.returned, ha]
          intro e; cases e
          exact attrLoopRun_fuel _ _ _ ha

/-! ## The reconciler on an id that starts with a digit -/

/-- C4 at a failing input: the old node is an `li` with the id that
`createNode` draws for `Math.random() = 0.1`, the new node a `div` with the
same id. The selection of line 84 throws a `SyntaxError`: the run ends with no
call, neither the `remove` nor the `create`. With the id `a` the same pair
gives the two calls. -/
theorem replace_throws_on_digit_first_id :
    (task3.type ≠ div3.type ∨ task3.id ≠ div3.id) ∧
    (∀ fuel, diffAndUpdateRun (fuel + 1) (some task3) (some div3) Handle.app
      = Run.failed Failure.syntaxError) ∧
    (∀ fuel, diffAndUpdateRun (fuel + 1) (some taskA) (some divA) Handle.app
      = Run.returned [Call.remove "a", Call.create divA Handle.app]) :=
  ⟨by decide, fun _ => rfl, fun _ => rfl⟩

/-- C5 at a failing input: a task with the id that `createNode` draws for
`Math.random() = 0.1` and the text `x`, against the same task with the text
`y`. The selection of line 90 throws a `SyntaxError`: the run ends with no
call, so no `setText`. With the id `a` the same pair gives the one call. -/
theorem text_patch_throws_on_digit_first_id :
    (task3.id = task3y.id ∧ task3.type = task3y.type ∧ task3.attributes = task3y.attributes
      ∧ task3.children = task3y.children ∧ task3.text ≠ task3y.text) ∧
    (∀ fuel, diffAndUpdateRun (fuel + 1) (some task3) (some task3y) Handle.app
      = Run.failed Failure.syntaxError) ∧
    (∀ fuel, diffAndUpdateRun (fuel + 1) (some taskA) (some taskA2) Handle.app
      = Run.returned [Call.setText "a" "y"]) :=
  ⟨⟨rfl, rfl, rfl, rfl, by decide⟩, fun _ => rfl, fun _ => rfl⟩

/-- C6 at a failing input: the root with one task, whose id is the one that
`createNode` draws for `Math.random() = 0.1`, against the same root with the
task `c` added at the end, as after a second `addTask`. At index 0 the
selection of line 90 throws a `SyntaxError` on the kept task: the run ends with
no call, and the `create` of `c` is not reached. With the kept task `a` the run
makes the one call. -/
theorem tail_insertion_throws_on_digit_first_id :
    (rootWith [task3, taskC]).children = (rootWith [task3]).children ++ [taskC] ∧
    (∀ fuel, diffAndUpdateRun (fuel + 2) (some (rootWith [task3]))
        (some (rootWith [task3, taskC])) Handle.app
      = Run.failed Failure.syntaxError) ∧
    (∀ fuel, diffAndUpdateRun (fuel + 2) (some (rootWith [taskA]))
        (some (rootWith [taskA, taskC])) Handle.app
      = Run.returned [Call.create taskC (Handle.byId "root")]) :=
  ⟨rfl, fun _ => rfl, fun _ => rfl⟩

/-- C8 at a failing input: a task with the id that `createNode` draws for
`Math.random() = 0.1`, with one attribute changed, one new and one dropped. The
selection of line 90 throws a `SyntaxError`: the run ends with no call, so no
`setAttribute` for the changed and the new entry. With the id `a` the same pair
gives the two calls. -/
theorem attribute_patch_throws_on_digit_first_id :
    (task3OldAttrs.id = task3NewAttrs.id ∧ task3OldAttrs.type = task3NewAttrs.type) ∧
    (∀ fuel, diffAndUpdateRun (fuel + 1) (some task3OldAttrs) (some task3NewAttrs) Handle.app
      = Run.failed Failure.syntaxError) ∧
    (∀ fuel, diffAndUpdateRun (fuel + 1) (some taskOldAttrs) (some taskNewAttrs) Handle.app
      = Run.returned
          [Call.setAttribute "a" "title" "t2", Call.setAttribute "a" "dir" "ltr"]) :=
  ⟨⟨rfl, rfl⟩, fun _ => rfl, fun _ => rfl⟩

/-- C9 at a failing input: the old node is a task with the id that
`createNode` draws for `Math.random() = 0.1` and the new node is absent. The
selection of line 78 throws a `SyntaxError`: the run ends with no call, so no
`remove`. With the task `b` the run makes the one call. -/
theorem deleted_subtree_throws_on_digit_first_id :
    (∀ fuel, diffAndUpdateRun (fuel + 1) (some task3) none Handle.app
      = Run.failed Failure.syntaxError) ∧
    (∀ fuel, diffAndUpdateRun (fuel + 1) (some taskB) none Handle.app
      = Run.returned [Call.remove "b"]) :=
  ⟨fun _ => rfl, fun _ => rfl⟩

/-- C18 at a failing input: both roots are present, the root with one task
whose id is the one that `createNode` draws for `Math.random() = 0.1`, against
itself. The reconciler fails: at index 0 the selection of line 90 throws a
`SyntaxError`. The same holds when the task itself is the root. -/
theorem reconciler_throws_on_digit_first_id :
    (∀ fuel, (diffAndUpdateRun (fuel + 2) (some (rootWith [task3])) (some (rootWith [task3]))
        Handle.app).failure = some Failure.syntaxError) ∧
    (∀ fuel, (diffAndUpdateRun (fuel + 1) (some task3) (some task3) Handle.app).failure
      = some Failure.syntaxError) :=
  ⟨fun _ => rfl, fun _ => rfl⟩

/-! ## The entry points on an id that starts with a digit -/

/-- C12 at a failing input: the root with one task whose id is the one that
`createNode` draws for `Math.random() = 0.1`; the ids are distinct and the
snapshot equals the tree. `removeTask` with the id of the root, and with an id
that occurs nowhere, leaves the tree as it was, but the reconciliation that
follows throws a `SyntaxError` at line 90: it is not silent. -/
theorem removeTask_noop_throws_on_digit_first_id :
    state3.vDOM.ids.Nodup ∧ state3.prevVDOM = state3.vDOM ∧
    "root" = state3.vDOM.id ∧ "zz" ∉ state3.vDOM.ids ∧
    (removeTaskRun "root" state3).2.vDOM = state3.vDOM ∧
    (removeTaskRun "root" state3).1 = Run.failed Failure.syntaxError ∧
    (removeTaskRun "zz" state3).2.vDOM = state3.vDOM ∧
    (removeTaskRun "zz" state3).1 = Run.failed Failure.syntaxError :=
  ⟨by decide, rfl, rfl, by decide, rfl, rfl, rfl, rfl⟩

/-- C15 at a failing input: from the start state, `addTask` with `buy milk`
draws the id of `Math.random() = 0.1` and gives the one `li` child. `editTask`
of that id with `buy oat milk` changes the tree, and the reconciliation throws
a `SyntaxError` at line 90 without any call, so without the `setText`.
`removeTask` of that id leaves the root without children, and the
reconciliation throws at line 78 without any call, so without the `remove`. -/
theorem scenario_throws_on_digit_first_id :
    (addTaskRun "buy milk" digitFirstId start).1
      = Run.returned
          [Call.create (Node.mk digitFirstId "li" itemAttrs [] "buy milk")
            (Handle.byId "root")] ∧
    afterAdd.vDOM = rootWith [Node.mk digitFirstId "li" itemAttrs [] "buy milk"] ∧
    (editTaskRun digitFirstId (some "buy oat milk") afterAdd).1
      = Run.failed Failure.syntaxError ∧
    afterEdit.vDOM = rootWith [Node.mk digitFirstId "li" itemAttrs [] "buy oat milk"] ∧
    (removeTaskRun digitFirstId afterEdit).1 = Run.failed Failure.syntaxError ∧
    (removeTaskRun digitFirstId afterEdit).2.vDOM.children.length = 0 :=
  ⟨rfl, rfl, rfl, rfl, rfl, rfl⟩

/-- C16 at a failing input: after `addTask` the snapshot equals the tree.
`editTask` of the new task, whose id starts with a digit, changes the tree, the
reconciliation throws and line 237 is not reached. A further `addTask` with a
blank input returns at line 183, and after it the snapshot, with the text
`buy milk`, differs from the current tree, with the text `buy oat milk`; a
further `refreshDOM` throws again instead of returning without a call. -/
theorem snapshot_stale_after_throw :
    afterAdd.prevVDOM = afterAdd.vDOM ∧
    (editTaskRun digitFirstId (some "buy oat milk") afterAdd).1
      = Run.failed Failure.syntaxError ∧
    (addTaskRun "   " "k2" afterEdit).1 = Run.returned [] ∧
    afterBlank.vDOM = rootWith [Node.mk digitFirstId "li" itemAttrs [] "buy oat milk"] ∧
    afterBlank.prevVDOM = rootWith [Node.mk digitFirstId "li" itemAttrs [] "buy milk"] ∧
    afterBlank.prevVDOM ≠ afterBlank.vDOM ∧
    (refreshDOMRun afterBlank).1 = Run.failed Failure.syntaxError := by
  refine ⟨rfl, rfl, rfl, rfl, rfl, ?_, rfl⟩
  intro h
  have h' := congrArg (fun n : Node => n.children.map Node.text) h
  revert h'
  decide

/-- C19 at a failing input: the sample tree has distinct ids that are simple
names, the surface is the one `renderDOM` gives for it and the snapshot equals
it. `editTask` of the task `b`, which has the sub-task `b1`, returns after the
one call `setText`. The D3 method `text` removes the children of the element,
so the element `b1` is gone from the surface while `b1` is in the current
tree: the surface does not mirror it. -/
theorem edit_drops_sub_tasks_from_surface :
    sampleState.vDOM.ids.Nodup ∧
    mirrorsList [sampleState.vDOM] sampleSurface = true ∧
    sampleState.prevVDOM = sampleState.vDOM ∧
    (editTaskRun "b" (some "later") sampleState).1 = Run.returned [Call.setText "b" "later"] ∧
    nodeAt afterEditB.vDOM [1, 0] = some (Node.mk "b1" "li" itemAttrs [] "sub") ∧
    mirrorsList [afterEditB.vDOM] (applyCalls sampleSurface [Call.setText "b" "later"])
      = false ∧
    mirrorsList [rootWith [taskA, Node.mk "b" "li" itemAttrs [] "later", taskC]]
      (applyCalls sampleSurface [Call.setText "b" "later"]) = true :=
  ⟨by decide, by decide, rfl, rfl, rfl, by decide, by decide⟩

/-! ## Head insertion -/

theorem selectById_simple (id : String) (h : isSimpleName id = true) : selectById id = none := by
  simp [selectById, h]

theorem renderDOMRun_renderable (n : Node) (parent : Handle) (h : renderable n = true) :
    renderDOMRun n parent = Run.returned [Call.create n parent] := by
  simp [renderDOMRun, h]

/-- A node with a simple id against a renderable node of another id or type:
the run returns after the `remove` and the `create`. -/
theorem diffAndUpdateRun_replace (fuel : Nat) (o n : Node) (parent : Handle)
    (hne : o.type ≠ n.type ∨ o.id ≠ n.id) (hid : isSimpleName o.id = true)
    (hn : renderable n = true) :
    diffAndUpdateRun (fuel + 1) (some o) (some n) parent
      = Run.returned [Call.remove o.id, Call.create n parent] := by
  simp only [diffAndUpdateRun, hne, if_true, selectById_simple o.id hid,
    renderDOMRun_renderable n parent hn]
  rfl

/-- C7 as stated fails: with children `[a, b]` against `[c, a, b]` the call at
the third position makes a `create` only, so not every position makes a
`remove` followed by a `create`. -/
theorem head_insertion_last_position_only_creates :
    ¬ (∀ i, i < 3 → ∃ x n,
        (diffAndUpdateRun 1 ([taskA, taskB][i]?) ([taskC, taskA, taskB][i]?)
          (Handle.byId "root")).calls
          = [Call.remove x, Call.create n (Handle.byId "root")]) := by
  intro H
  obtain ⟨x, n, e⟩ := H 2 (by decide)
  have h2 : (diffAndUpdateRun 1 ([taskA, taskB][2]?) ([taskC, taskA, taskB][2]?)
      (Handle.byId "root")).calls = [Call.create taskB (Handle.byId "root")] := rfl
  rw [h2] at e
  cases e

/-- C7, amended: with children `[a, b]` against `[c, a, b]` under the same
parent, where the ids of the parent, of `a` and of `b` are simple names, the ids
of `a`, `b`, `c` differ and `a`, `b`, `c` are renderable, the call at position
0 and the call at position 1 each return after a `remove` followed by a
`create`, the call at position 2 returns after a `create` only, and the whole
run returns after these five calls: no position is patched in place. -/
theorem head_insertion_replaces (a b c : Node) (pid pty ptext : String) (pattrs : Attrs)
    (h : Handle) (fuel : Nat) (hac : a.id ≠ c.id) (hba : b.id ≠ a.id)
    (hpid : isSimpleName pid = true) (haid : isSimpleName a.id = true)
    (hbid : isSimpleName b.id = true) (ha : renderable a = true) (hb : renderable b = true)
    (hc : renderable c = true) :
    diffAndUpdateRun (fuel + 1) ([a, b][0]?) ([c, a, b][0]?) (Handle.byId pid)
        = Run.returned [Call.remove a.id, Call.create c (Handle.byId pid)] ∧
    diffAndUpdateRun (fuel + 1) ([a, b][1]?) ([c, a, b][1]?) (Handle.byId pid)
        = Run.returned [Call.remove b.id, Call.create a (Handle.byId pid)] ∧
    diffAndUpdateRun (fuel + 1) ([a, b][2]?) ([c, a, b][2]?) (Handle.byId pid)
        = Run.returned [Call.create b (Handle.byId pid)] ∧
    diffAndUpdateRun (fuel + 2) (some (Node.mk pid pty pattrs [a, b] ptext))
        (some (Node.mk pid pty pattrs [c, a, b] ptext)) h
      = Run.returned [Call.remove a.id, Call.create c (Handle.byId pid),
          Call.remove b.id, Call.create a (Handle.byId pid),
          Call.create b (Handle.byId pid)] := by
  have h0 := diffAndUpdateRun_replace fuel a c (Handle.byId pid) (Or.inr hac) haid hc
  have h1 := diffAndUpdateRun_replace fuel b a (Handle.byId pid) (Or.inr hba) hbid ha
  have h2 : diffAndUpdateRun (fuel + 1) none (some b) (Handle.byId pid)
      = Run.returned [Call.create b (Handle.byId pid)] := by
    simp only [diffAndUpdateRun, renderDOMRun_renderable b _ hb]
  refine ⟨h0, h1, h2, ?_⟩
  have hsame : ¬ (pty ≠ pty ∨ pid ≠ pid) := by simp
  simp only [diffAndUpdateRun, Node.type, Node.id, Node.children, Node.attributes, hsame,
    if_false, selectById_simple pid hpid, attrLoopRun_self, textPatch, Node.text]
  simp only [ne_eq, not_true_eq_false, if_false, List.length_cons, List.length_nil]
  have hlen : max (0 + 1 + 1) (0 + 1 + 1 + 1) = 3 := by decide
  rw [hlen]
  simp only [forLoop, List.getElem?_cons_zero, List.getElem?_cons_succ, List.getElem?_nil]
  have h0' := h0
  have h1' := h1
  simp only [List.getElem?_cons_zero, List.getElem?_cons_succ] at h0' h1'
  rw [h0', h1', h2]
  rfl

/-- Children `a`, `b` against children `c`, `a`, `b` under the root. -/
theorem head_insertion_replaces_witness :
    (taskA.id ≠ taskC.id ∧ taskB.id ≠ taskA.id ∧ isSimpleName "root" = true
      ∧ isSimpleName taskA.id = true ∧ isSimpleName taskB.id = true
      ∧ renderable taskA = true ∧ renderable taskB = true ∧ renderable taskC = true) ∧
    diffAndUpdateRun 2 (some (rootWith [taskA, taskB])) (some (rootWith [taskC, taskA, taskB]))
        Handle.app
      = Run.returned [Call.remove "a", Call.create taskC (Handle.byId "root"),
          Call.remove "b", Call.create taskA (Handle.byId "root"),
          Call.create taskB (Handle.byId "root")] :=
  ⟨by decide,
    (head_insertion_replaces taskA taskB taskC "root" "div" "" rootAttrs Handle.app 0
      (by decide) (by decide) (by decide) (by decide) (by decide) (by decide) (by decide)
      (by decide)).2.2.2⟩

end VDom
